import Mathlib

/-!
# Stampy bucket: a verification development for `bucket.go`

The Go file `bucket.go` implements an in-process key/value store
(`StampyBucket`) with permanent entries, entries carrying an absolute expiry,
six usage counters and two reader/writer mutexes.

Embedding conventions.

* `time.Time` is an instant on the integer line (`Time := Int`); the Go zero
  time is the instant `0`, `IsZero` tests for it, `Before` is strict `<`.
* `time.Now()` is an explicit argument `now` of every operation that reads
  the clock.
* A Go `map[string]V` is a function `String → Option V`; `m[k] = v` is
  `mapSet`, `delete(m, k)` is `mapDelete`, the two-result lookup
  `v, ok := m[k]` is the application `m k`.
* The `uint64` counters are natural numbers, every increment is taken
  modulo `2 ^ 64` (`uint64Inc`).
* A `sync.RWMutex` is a reader count and a writer flag.  Calls are executed
  by one goroutine from start to end; an acquisition that cannot proceed in
  the current mutex state would wait forever, and a release of a mutex that
  is not held is a fatal runtime error.  Both are the result `none`: the
  call never returns.
* A bucket is a constructed one: both maps are allocated and the pointer
  `stampyBucketStats` points to the counters of this bucket, which are
  therefore a field of the bucket state.
* The `error` result is `Option String`, `none` being `nil`.
* `log.Println`/`log.Printf` only write to the log and are left out.
-/

namespace Stampy

/-! ## Data model -/

/-- An instant (`time.Time`), counted from the Go zero time. -/
abbrev Time := Int

/-- Go `t.IsZero()`. -/
def IsZero (t : Time) : Bool := decide (t = 0)

/-- Go `t.Before(u)`: `t` is strictly earlier than `u`. -/
def Before (t u : Time) : Bool := decide (t < u)

/-- Go `type StampyBucketEntry struct`. -/
structure StampyBucketEntry where
  EntryValue : String
  CreationDate : Time
  LastAccessed : Time
  ValidUntil : Time
deriving DecidableEq, Repr

/-- The Go zero value of `StampyBucketEntry` (what `var cacheEntry` and a
failed map lookup give). -/
def zeroEntry : StampyBucketEntry :=
  { EntryValue := "", CreationDate := 0, LastAccessed := 0, ValidUntil := 0 }

/-- Go `type StampyBucketStats struct`: six `uint64` counters. -/
structure StampyBucketStats where
  KeyPuts : Nat
  KeyDeletes : Nat
  KeyHits : Nat
  AbsentKeyHits : Nat
  ExpiredKeys : Nat
  ExpiredKeyHits : Nat
deriving DecidableEq, Repr

/-- The largest `uint64`. -/
def maxUint64 : Nat := 18446744073709551615

/-- The `uint64` operation `c += 1` (also `c++`): wraps around at `2 ^ 64`. -/
def uint64Inc (c : Nat) : Nat := (c + 1) % 18446744073709551616

/-- Go `func (stats *StampyBucketStats) incrementKeyPuts()`. -/
def StampyBucketStats.incrementKeyPuts (stats : StampyBucketStats) : StampyBucketStats :=
  { stats with KeyPuts := uint64Inc stats.KeyPuts }

/-- Go `func (stats *StampyBucketStats) incrementKeyDeletes()`. -/
def StampyBucketStats.incrementKeyDeletes (stats : StampyBucketStats) : StampyBucketStats :=
  { stats with KeyDeletes := uint64Inc stats.KeyDeletes }

/-- Go `func (stats *StampyBucketStats) incrementKeyHits()`. -/
def StampyBucketStats.incrementKeyHits (stats : StampyBucketStats) : StampyBucketStats :=
  { stats with KeyHits := uint64Inc stats.KeyHits }

/-- Go `func (stats *StampyBucketStats) incrementAbsentKeyHits()`. -/
def StampyBucketStats.incrementAbsentKeyHits (stats : StampyBucketStats) : StampyBucketStats :=
  { stats with AbsentKeyHits := uint64Inc stats.AbsentKeyHits }

/-- Go `func (stats *StampyBucketStats) incrementExpiredKeys()`. -/
def StampyBucketStats.incrementExpiredKeys (stats : StampyBucketStats) : StampyBucketStats :=
  { stats with ExpiredKeys := uint64Inc stats.ExpiredKeys }

/-- Go `func (stats *StampyBucketStats) incrementExpiredKeyHits()`. -/
def StampyBucketStats.incrementExpiredKeyHits (stats : StampyBucketStats) : StampyBucketStats :=
  { stats with ExpiredKeyHits := uint64Inc stats.ExpiredKeyHits }

/-! ## Maps -/

/-- Go `m[k] = v`. -/
def mapSet {V : Type} (m : String → Option V) (k : String) (v : V) : String → Option V :=
  fun j => if j = k then some v else m j

/-- Go `delete(m, k)`. -/
def mapDelete {V : Type} (m : String → Option V) (k : String) : String → Option V :=
  fun j => if j = k then none else m j

/-- The empty map. -/
def mapEmpty {V : Type} : String → Option V := fun _ => none

/-- Go `s.ttlIndex[key]` read as a condition: the stored boolean, `false`
when the key is absent. -/
def indexMarks (m : String → Option Bool) (k : String) : Bool := (m k).getD false

/-! ## Reader/writer mutex -/

/-- The state of a `sync.RWMutex`: how many shared holders there are and
whether an exclusive holder is present. -/
structure RWMutex where
  readers : Nat
  writer : Bool
deriving DecidableEq, Repr

/-- The Go zero value of `sync.RWMutex`: nobody holds it. -/
def RWMutex.unlocked : RWMutex := { readers := 0, writer := false }

/-- `Lock()`: exclusive acquisition, possible only when nobody holds the mutex. -/
def RWMutex.Lock (m : RWMutex) : Option RWMutex :=
  if m.readers = 0 ∧ m.writer = false then some { m with writer := true } else none

/-- `Unlock()`: releases the exclusive acquisition; fatal when there is none. -/
def RWMutex.Unlock (m : RWMutex) : Option RWMutex :=
  if m.writer = true then some { m with writer := false } else none

/-- `RLock()`: shared acquisition, possible when no exclusive holder is present. -/
def RWMutex.RLock (m : RWMutex) : Option RWMutex :=
  if m.writer = false then some { m with readers := m.readers + 1 } else none

/-- `RUnlock()`: releases one shared acquisition; fatal when there is none. -/
def RWMutex.RUnlock (m : RWMutex) : Option RWMutex :=
  if 0 < m.readers then some { m with readers := m.readers - 1 } else none

/-! ## The bucket and its three operations -/

/-- Go `type StampyBucket struct`. -/
structure StampyBucket where
  keyValueCache : String → Option StampyBucketEntry
  ttlIndex : String → Option Bool
  stampyBucketStats : StampyBucketStats
  cacheMutex : RWMutex
  ttlCacheMutex : RWMutex

/-- Go `func (s *StampyBucket) putKeyWithValue(key, value string, validUntil time.Time)`.
The result is the bucket after the call, `none` when the call never returns. -/
def putKeyWithValue (s : StampyBucket) (key value : String) (validUntil now : Time) :
    Option StampyBucket :=
  let cacheEntry : StampyBucketEntry :=
    { EntryValue := value, CreationDate := now, LastAccessed := now, ValidUntil := 0 }
  if !IsZero validUntil then do
    let m ← s.ttlCacheMutex.Lock
    let s := { s with ttlCacheMutex := m }
    let cacheEntry := { cacheEntry with ValidUntil := validUntil }
    let s := { s with keyValueCache := mapSet s.keyValueCache key cacheEntry }
    let s := { s with ttlIndex := mapSet s.ttlIndex key true }
    let m ← s.ttlCacheMutex.Unlock
    pure { s with ttlCacheMutex := m }
  else do
    let m ← s.cacheMutex.Lock
    let s := { s with cacheMutex := m }
    let s := { s with keyValueCache := mapSet s.keyValueCache key cacheEntry }
    let s := { s with stampyBucketStats :=
      { s.stampyBucketStats with KeyPuts := uint64Inc s.stampyBucketStats.KeyPuts } }
    let m ← s.cacheMutex.Unlock
    pure { s with cacheMutex := m }

/-- Go `func (s *StampyBucket) deleteValueWithKeyIfPresent(key string)`. -/
def deleteValueWithKeyIfPresent (s : StampyBucket) (key : String) : Option StampyBucket :=
  match s.keyValueCache key with
  | some _ => do
    let m ← s.cacheMutex.Lock
    let s := { s with cacheMutex := m }
    let s := { s with keyValueCache := mapDelete s.keyValueCache key }
    let s := { s with stampyBucketStats := s.stampyBucketStats.incrementKeyDeletes }
    let m ← s.cacheMutex.Unlock
    pure { s with cacheMutex := m }
  | none => pure s

/-- What a call of `getValueWithKey` that returns leaves behind: the two
results and the bucket. -/
structure GetResult where
  value : StampyBucketEntry
  err : Option String
  bucket : StampyBucket

/-- Go `func (s *StampyBucket) getValueWithKey(key string) (StampyBucketEntry, error)`.
On the expired path the results are fixed by the `return` statement before
the deferred `deleteValueWithKeyIfPresent` runs; the bucket of the result is
the one the deferred call leaves. -/
def getValueWithKey (s : StampyBucket) (key : String) (now : Time) : Option GetResult :=
  if indexMarks s.ttlIndex key then do
    let m ← s.ttlCacheMutex.RLock
    let s := { s with ttlCacheMutex := m }
    match s.keyValueCache key with
    | some value =>
      if Before value.ValidUntil now then do
        let s := { s with stampyBucketStats := s.stampyBucketStats.incrementExpiredKeyHits }
        let s ← deleteValueWithKeyIfPresent s key
        pure { value := value, err := some "Expired key", bucket := s }
      else
        let s := { s with stampyBucketStats := s.stampyBucketStats.incrementKeyHits }
        pure { value := { value with LastAccessed := now }, err := none, bucket := s }
    | none => pure { value := zeroEntry, err := some "Missing key", bucket := s }
  else do
    let m ← s.cacheMutex.RLock
    let s := { s with cacheMutex := m }
    match s.keyValueCache key with
    | some value =>
      let s := { s with stampyBucketStats := s.stampyBucketStats.incrementKeyHits }
      let m ← s.cacheMutex.RUnlock
      let s := { s with cacheMutex := m }
      pure { value := value, err := none, bucket := s }
    | none =>
      let s := { s with stampyBucketStats := s.stampyBucketStats.incrementAbsentKeyHits }
      let m ← s.cacheMutex.RUnlock
      let s := { s with cacheMutex := m }
      pure { value := zeroEntry, err := some "Missing key", bucket := s }

/-- Modelled from the spec: the construction of a bucket is not part of
`bucket.go`; the spec asks for "clear initialization (empty mappings, zeroed
counters)".  The two mutexes have their Go zero value. -/
def emptyBucket : StampyBucket :=
  { keyValueCache := mapEmpty
    ttlIndex := mapEmpty
    stampyBucketStats :=
      { KeyPuts := 0, KeyDeletes := 0, KeyHits := 0, AbsentKeyHits := 0,
        ExpiredKeys := 0, ExpiredKeyHits := 0 }
    cacheMutex := RWMutex.unlocked
    ttlCacheMutex := RWMutex.unlocked }

/-- The buckets a single caller can produce from `emptyBucket` by finitely
many calls of the three operations, each of which returned; the clock values
are arbitrary. -/
inductive Reachable : StampyBucket → Prop
  | empty : Reachable emptyBucket
  | put {s s1 : StampyBucket} (key value : String) (validUntil now : Time) :
      Reachable s → putKeyWithValue s key value validUntil now = some s1 → Reachable s1
  | get {s : StampyBucket} {r : GetResult} (key : String) (now : Time) :
      Reachable s → getValueWithKey s key now = some r → Reachable r.bucket
  | delete {s s1 : StampyBucket} (key : String) :
      Reachable s → deleteValueWithKeyIfPresent s key = some s1 → Reachable s1

/-- The given number of consecutive `getValueWithKey` calls on one key, the
clock of each call taken from the list; the results are collected in call
order together with the final bucket. -/
def getValueWithKeyTimes (s : StampyBucket) (key : String) :
    List Time → Option (List GetResult × StampyBucket)
  | [] => some ([], s)
  | now :: rest =>
    match getValueWithKey s key now with
    | none => none
    | some r =>
      match getValueWithKeyTimes r.bucket key rest with
      | none => none
      | some (rs, s1) => some (r :: rs, s1)

/-- A bucket without entries whose six counters all hold the largest
`uint64`; the mutexes are not held. -/
def saturatedBucket : StampyBucket :=
  { emptyBucket with
    stampyBucketStats :=
      { KeyPuts := maxUint64, KeyDeletes := maxUint64, KeyHits := maxUint64,
        AbsentKeyHits := maxUint64, ExpiredKeys := maxUint64, ExpiredKeyHits := maxUint64 } }

/-- The bucket `emptyBucket` becomes by `putKeyWithValue("k", "v", 5)` at clock 1. -/
def ttlBucket : StampyBucket :=
  { emptyBucket with
    keyValueCache := mapSet mapEmpty "k"
      { EntryValue := "v", CreationDate := 1, LastAccessed := 1, ValidUntil := 5 }
    ttlIndex := mapSet mapEmpty "k" true }

/-- The bucket `emptyBucket` becomes by `putKeyWithValue("k", "v", zero time)` at clock 1. -/
def permanentBucket : StampyBucket :=
  { emptyBucket with
    keyValueCache := mapSet mapEmpty "k"
      { EntryValue := "v", CreationDate := 1, LastAccessed := 1, ValidUntil := 0 }
    stampyBucketStats :=
      { KeyPuts := 1, KeyDeletes := 0, KeyHits := 0, AbsentKeyHits := 0,
        ExpiredKeys := 0, ExpiredKeyHits := 0 } }

/-- The bucket `saturatedBucket` with a permanent entry for `"k"`. -/
def saturatedEntryBucket : StampyBucket :=
  { saturatedBucket with
    keyValueCache := mapSet mapEmpty "k"
      { EntryValue := "v", CreationDate := 1, LastAccessed := 1, ValidUntil := 0 } }

/-- The buckets a single caller can produce from a given bucket by finitely
many calls of the three operations, each of which returned; the clock values
are arbitrary. -/
inductive Steps : StampyBucket → StampyBucket → Prop
  | refl (s : StampyBucket) : Steps s s
  | put {s s1 s2 : StampyBucket} (key value : String) (validUntil now : Time) :
      Steps s s1 → putKeyWithValue s1 key value validUntil now = some s2 → Steps s s2
  | get {s s1 : StampyBucket} {r : GetResult} (key : String) (now : Time) :
      Steps s s1 → getValueWithKey s1 key now = some r → Steps s r.bucket
  | delete {s s1 s2 : StampyBucket} (key : String) :
      Steps s s1 → deleteValueWithKeyIfPresent s1 key = some s2 → Steps s s2

/-- One counter before (`a`) and after (`b`) an operation: it is unchanged or
was incremented once as a `uint64`; so below the largest `uint64` it has not
decreased, and at the largest `uint64` it is unchanged or has wrapped to 0. -/
def counterStep (a b : Nat) : Prop :=
  (b = a ∨ b = uint64Inc a) ∧
  (a < maxUint64 → a ≤ b) ∧
  (a = maxUint64 → b = a ∨ b = 0)

instance (a b : Nat) : Decidable (counterStep a b) := by
  unfold counterStep
  infer_instance

/-- All six counters before (`a`) and after (`b`) an operation, counter by
counter as in `counterStep`. -/
def countersStep (a b : StampyBucketStats) : Prop :=
  counterStep a.KeyPuts b.KeyPuts ∧
  counterStep a.KeyDeletes b.KeyDeletes ∧
  counterStep a.KeyHits b.KeyHits ∧
  counterStep a.AbsentKeyHits b.AbsentKeyHits ∧
  counterStep a.ExpiredKeys b.ExpiredKeys ∧
  counterStep a.ExpiredKeyHits b.ExpiredKeyHits

instance (a b : StampyBucketStats) : Decidable (countersStep a b) := by
  unfold countersStep
  infer_instance

/-- The bucket `ttlBucket` becomes by `getValueWithKey("k")` at clock 2, a hit:
one hit is counted and one shared holder of `ttlCacheMutex` is outstanding. -/
def readBucket : StampyBucket :=
  { ttlBucket with
    stampyBucketStats :=
      { KeyPuts := 0, KeyDeletes := 0, KeyHits := 1, AbsentKeyHits := 0,
        ExpiredKeys := 0, ExpiredKeyHits := 0 }
    ttlCacheMutex := { readers := 1, writer := false } }

/-- The bucket `saturatedBucket` with a marked TTL entry (expiry 5) for `"k"`. -/
def saturatedTtlBucket : StampyBucket :=
  { saturatedBucket with
    keyValueCache := mapSet mapEmpty "k"
      { EntryValue := "v", CreationDate := 1, LastAccessed := 1, ValidUntil := 5 }
    ttlIndex := mapSet mapEmpty "k" true }

/-- A bucket in which `"k"` is marked in the index and has no stored entry
(as after a lazy expiration); counters zero, mutexes unheld. -/
def markedEmptyBucket : StampyBucket :=
  { emptyBucket with ttlIndex := mapSet mapEmpty "k" true }

/-! ## Equations of the operations, one per path -/

theorem mapSet_same {V : Type} (m : String → Option V) (k : String) (v : V) :
    mapSet m k v k = some v := by
  simp [mapSet]

theorem mapSet_other {V : Type} (m : String → Option V) (k j : String) (v : V) (h : j ≠ k) :
    mapSet m k v j = m j := by
  simp [mapSet, h]

theorem mapDelete_same {V : Type} (m : String → Option V) (k : String) :
    mapDelete m k k = none := by
  simp [mapDelete]

theorem mapDelete_other {V : Type} (m : String → Option V) (k j : String) (h : j ≠ k) :
    mapDelete m k j = m j := by
  simp [mapDelete, h]

theorem uint64Inc_of_lt (c : Nat) (h : c < maxUint64) : uint64Inc c = c + 1 := by
  unfold uint64Inc maxUint64 at *
  exact Nat.mod_eq_of_lt (by omega)

theorem uint64Inc_max : uint64Inc maxUint64 = 0 := by
  decide

/-- Permanent put on a bucket whose `cacheMutex` nobody holds. -/
theorem put_permanent_eq (s : StampyBucket) (key value : String) (now : Time)
    (hc : s.cacheMutex = RWMutex.unlocked) :
    putKeyWithValue s key value 0 now =
      some { s with
        keyValueCache := mapSet s.keyValueCache key
          { EntryValue := value, CreationDate := now, LastAccessed := now, ValidUntil := 0 }
        stampyBucketStats :=
          { s.stampyBucketStats with KeyPuts := uint64Inc s.stampyBucketStats.KeyPuts } } := by
  obtain ⟨kv, idx, st, cm, tm⟩ := s
  simp only at hc
  subst hc
  simp [putKeyWithValue, IsZero, RWMutex.Lock, RWMutex.Unlock, RWMutex.unlocked]

/-- TTL put on a bucket whose `ttlCacheMutex` nobody holds. -/
theorem put_ttl_eq (s : StampyBucket) (key value : String) (validUntil now : Time)
    (hv : validUntil ≠ 0) (ht : s.ttlCacheMutex = RWMutex.unlocked) :
    putKeyWithValue s key value validUntil now =
      some { s with
        keyValueCache := mapSet s.keyValueCache key
          { EntryValue := value, CreationDate := now, LastAccessed := now,
            ValidUntil := validUntil }
        ttlIndex := mapSet s.ttlIndex key true } := by
  obtain ⟨kv, idx, st, cm, tm⟩ := s
  simp only at ht
  subst ht
  simp [putKeyWithValue, IsZero, hv, RWMutex.Lock, RWMutex.Unlock, RWMutex.unlocked]

/-- TTL put on a bucket whose `ttlCacheMutex` has a holder never returns. -/
theorem put_ttl_blocked (s : StampyBucket) (key value : String) (validUntil now : Time)
    (hv : validUntil ≠ 0) (ht : s.ttlCacheMutex ≠ RWMutex.unlocked) :
    putKeyWithValue s key value validUntil now = none := by
  obtain ⟨kv, idx, st, cm, ⟨r, w⟩⟩ := s
  have : ¬ (r = 0 ∧ w = false) := by
    rintro ⟨h1, h2⟩
    exact ht (by simp [RWMutex.unlocked, h1, h2])
  simp [putKeyWithValue, IsZero, hv, RWMutex.Lock, this]

/-- Delete of a key without entry: nothing happens, no mutex is touched. -/
theorem delete_absent_eq (s : StampyBucket) (key : String) (h : s.keyValueCache key = none) :
    deleteValueWithKeyIfPresent s key = some s := by
  simp [deleteValueWithKeyIfPresent, h]

/-- Delete of a key with an entry on a bucket whose `cacheMutex` nobody holds. -/
theorem delete_present_eq (s : StampyBucket) (key : String) (e : StampyBucketEntry)
    (h : s.keyValueCache key = some e) (hc : s.cacheMutex = RWMutex.unlocked) :
    deleteValueWithKeyIfPresent s key =
      some { s with
        keyValueCache := mapDelete s.keyValueCache key
        stampyBucketStats := s.stampyBucketStats.incrementKeyDeletes } := by
  obtain ⟨kv, idx, st, cm, tm⟩ := s
  simp only at hc h
  subst hc
  simp [deleteValueWithKeyIfPresent, h, RWMutex.Lock, RWMutex.Unlock, RWMutex.unlocked]

/-- Get on the permanent path, key without entry. -/
theorem get_permanent_miss_eq (s : StampyBucket) (key : String) (now : Time)
    (hi : indexMarks s.ttlIndex key = false) (h : s.keyValueCache key = none)
    (hc : s.cacheMutex.writer = false) :
    getValueWithKey s key now =
      some { value := zeroEntry, err := some "Missing key",
             bucket := { s with
               stampyBucketStats := s.stampyBucketStats.incrementAbsentKeyHits } } := by
  obtain ⟨kv, idx, st, ⟨r, w⟩, tm⟩ := s
  simp only at hc h hi
  subst hc
  simp [getValueWithKey, hi, h, RWMutex.RLock, RWMutex.RUnlock]

/-- Get on the permanent path, key with an entry. -/
theorem get_permanent_hit_eq (s : StampyBucket) (key : String) (now : Time)
    (e : StampyBucketEntry)
    (hi : indexMarks s.ttlIndex key = false) (h : s.keyValueCache key = some e)
    (hc : s.cacheMutex.writer = false) :
    getValueWithKey s key now =
      some { value := e, err := none,
             bucket := { s with
               stampyBucketStats := s.stampyBucketStats.incrementKeyHits } } := by
  obtain ⟨kv, idx, st, ⟨r, w⟩, tm⟩ := s
  simp only at hc h hi
  subst hc
  simp [getValueWithKey, hi, h, RWMutex.RLock, RWMutex.RUnlock]

/-- Get on the TTL path, key without entry: the shared acquisition stays. -/
theorem get_ttl_missing_eq (s : StampyBucket) (key : String) (now : Time)
    (hi : indexMarks s.ttlIndex key = true) (h : s.keyValueCache key = none)
    (ht : s.ttlCacheMutex.writer = false) :
    getValueWithKey s key now =
      some { value := zeroEntry, err := some "Missing key",
             bucket := { s with
               ttlCacheMutex := { s.ttlCacheMutex with
                 readers := s.ttlCacheMutex.readers + 1 } } } := by
  obtain ⟨kv, idx, st, cm, ⟨r, w⟩⟩ := s
  simp only at ht h hi
  subst ht
  simp [getValueWithKey, hi, h, RWMutex.RLock]

/-- Get on the TTL path, entry not expired: the shared acquisition stays. -/
theorem get_ttl_hit_eq (s : StampyBucket) (key : String) (now : Time)
    (e : StampyBucketEntry)
    (hi : indexMarks s.ttlIndex key = true) (h : s.keyValueCache key = some e)
    (hv : ¬ e.ValidUntil < now) (ht : s.ttlCacheMutex.writer = false) :
    getValueWithKey s key now =
      some { value := { e with LastAccessed := now }, err := none,
             bucket := { s with
               stampyBucketStats := s.stampyBucketStats.incrementKeyHits
               ttlCacheMutex := { s.ttlCacheMutex with
                 readers := s.ttlCacheMutex.readers + 1 } } } := by
  obtain ⟨kv, idx, st, cm, ⟨r, w⟩⟩ := s
  simp only at ht h hi
  subst ht
  simp [getValueWithKey, hi, h, hv, Before, RWMutex.RLock]

/-- Get on the TTL path, entry expired, `cacheMutex` not held: the entry is
removed by the deferred delete, the shared acquisition stays. -/
theorem get_ttl_expired_eq (s : StampyBucket) (key : String) (now : Time)
    (e : StampyBucketEntry)
    (hi : indexMarks s.ttlIndex key = true) (h : s.keyValueCache key = some e)
    (hv : e.ValidUntil < now) (ht : s.ttlCacheMutex.writer = false)
    (hc : s.cacheMutex = RWMutex.unlocked) :
    getValueWithKey s key now =
      some { value := e, err := some "Expired key",
             bucket := { s with
               keyValueCache := mapDelete s.keyValueCache key
               stampyBucketStats :=
                 s.stampyBucketStats.incrementExpiredKeyHits.incrementKeyDeletes
               ttlCacheMutex := { s.ttlCacheMutex with
                 readers := s.ttlCacheMutex.readers + 1 } } } := by
  obtain ⟨kv, idx, st, cm, ⟨r, w⟩⟩ := s
  simp only at ht h hi hc
  subst ht
  subst hc
  simp [getValueWithKey, hi, h, hv, Before, RWMutex.RLock, deleteValueWithKeyIfPresent,
    RWMutex.Lock, RWMutex.Unlock, RWMutex.unlocked]

/-! ## What a returning call can have done to the mapping and the index -/

/-- A put that returns has written exactly the new entry; the index gets the
mark on the TTL path and is untouched on the permanent path. -/
theorem put_some_data (s s1 : StampyBucket) (key value : String) (validUntil now : Time)
    (h : putKeyWithValue s key value validUntil now = some s1) :
    s1.keyValueCache = mapSet s.keyValueCache key
        { EntryValue := value, CreationDate := now, LastAccessed := now,
          ValidUntil := validUntil } ∧
    s1.ttlIndex = if validUntil = 0 then s.ttlIndex else mapSet s.ttlIndex key true := by
  obtain ⟨kv, idx, st, ⟨cr, cw⟩, ⟨tr, tw⟩⟩ := s
  by_cases hv : validUntil = 0
  · subst hv
    by_cases hl : cr = 0 ∧ cw = false
    · simp [putKeyWithValue, IsZero, RWMutex.Lock, RWMutex.Unlock, hl] at h
      subst h
      simp
    · simp [putKeyWithValue, IsZero, RWMutex.Lock, hl] at h
  · by_cases hl : tr = 0 ∧ tw = false
    · simp [putKeyWithValue, IsZero, hv, RWMutex.Lock, RWMutex.Unlock, hl] at h
      subst h
      simp [hv]
    · simp [putKeyWithValue, IsZero, hv, RWMutex.Lock, hl] at h

/-- A delete that returns leaves the index alone and either leaves the mapping
alone or removes the key from it. -/
theorem delete_some_data (s s1 : StampyBucket) (key : String)
    (h : deleteValueWithKeyIfPresent s key = some s1) :
    s1.ttlIndex = s.ttlIndex ∧
    (s1.keyValueCache = s.keyValueCache ∨
      s1.keyValueCache = mapDelete s.keyValueCache key) := by
  obtain ⟨kv, idx, st, ⟨cr, cw⟩, ⟨tr, tw⟩⟩ := s
  cases hk : kv key with
  | none =>
    simp [deleteValueWithKeyIfPresent, hk] at h
    subst h
    simp
  | some e =>
    by_cases hl : cr = 0 ∧ cw = false
    · simp [deleteValueWithKeyIfPresent, hk, RWMutex.Lock, RWMutex.Unlock, hl] at h
      subst h
      simp
    · simp [deleteValueWithKeyIfPresent, hk, RWMutex.Lock, hl] at h

/-- A get that returns leaves the index alone and either leaves the mapping
alone or removes the key from it. -/
theorem get_some_data (s : StampyBucket) (r : GetResult) (key : String) (now : Time)
    (h : getValueWithKey s key now = some r) :
    r.bucket.ttlIndex = s.ttlIndex ∧
    (r.bucket.keyValueCache = s.keyValueCache ∨
      r.bucket.keyValueCache = mapDelete s.keyValueCache key) := by
  obtain ⟨kv, idx, st, ⟨cr, cw⟩, ⟨tr, tw⟩⟩ := s
  by_cases hi : indexMarks idx key = true
  · cases tw with
    | true => simp [getValueWithKey, hi, RWMutex.RLock] at h
    | false =>
      cases hk : kv key with
      | none =>
        simp [getValueWithKey, hi, RWMutex.RLock, hk] at h
        subst h
        simp
      | some e =>
        by_cases hb : e.ValidUntil < now
        · simp only [getValueWithKey, hi, RWMutex.RLock, hk, Before, hb] at h
          simp only [if_true, decide_True, Option.bind_eq_bind, Option.some_bind,
            Option.bind_eq_some, Option.pure_def] at h
          obtain ⟨s2, hdel, hr⟩ := h
          have hd := delete_some_data _ _ _ hdel
          simp only [Option.some.injEq] at hr
          subst hr
          exact hd
        · simp [getValueWithKey, hi, RWMutex.RLock, hk, Before, hb] at h
          subst h
          simp
  · simp only [Bool.not_eq_true] at hi
    cases cw with
    | true => simp [getValueWithKey, hi, RWMutex.RLock] at h
    | false =>
      cases hk : kv key with
      | none =>
        simp [getValueWithKey, hi, RWMutex.RLock, RWMutex.RUnlock, hk] at h
        subst h
        simp
      | some e =>
        simp [getValueWithKey, hi, RWMutex.RLock, RWMutex.RUnlock, hk] at h
        subst h
        simp

/-! ## What a returning call can have done to the two mutexes -/

/-- A put that returns leaves both mutexes as it found them. -/
theorem put_some_locks (s s1 : StampyBucket) (key value : String) (validUntil now : Time)
    (h : putKeyWithValue s key value validUntil now = some s1) :
    s1.cacheMutex = s.cacheMutex ∧ s1.ttlCacheMutex = s.ttlCacheMutex := by
  obtain ⟨kv, idx, st, ⟨cr, cw⟩, ⟨tr, tw⟩⟩ := s
  by_cases hv : validUntil = 0
  · subst hv
    by_cases hl : cr = 0 ∧ cw = false
    · simp [putKeyWithValue, IsZero, RWMutex.Lock, RWMutex.Unlock, hl] at h
      subst h
      simp [hl]
    · simp [putKeyWithValue, IsZero, RWMutex.Lock, hl] at h
  · by_cases hl : tr = 0 ∧ tw = false
    · simp [putKeyWithValue, IsZero, hv, RWMutex.Lock, RWMutex.Unlock, hl] at h
      subst h
      simp [hl]
    · simp [putKeyWithValue, IsZero, hv, RWMutex.Lock, hl] at h

/-- A delete that returns leaves both mutexes as it found them. -/
theorem delete_some_locks (s s1 : StampyBucket) (key : String)
    (h : deleteValueWithKeyIfPresent s key = some s1) :
    s1.cacheMutex = s.cacheMutex ∧ s1.ttlCacheMutex = s.ttlCacheMutex := by
  obtain ⟨kv, idx, st, ⟨cr, cw⟩, ⟨tr, tw⟩⟩ := s
  cases hk : kv key with
  | none =>
    simp [deleteValueWithKeyIfPresent, hk] at h
    subst h
    simp
  | some e =>
    by_cases hl : cr = 0 ∧ cw = false
    · simp [deleteValueWithKeyIfPresent, hk, RWMutex.Lock, RWMutex.Unlock, hl] at h
      subst h
      simp [hl]
    · simp [deleteValueWithKeyIfPresent, hk, RWMutex.Lock, hl] at h

/-- A get that returns leaves `cacheMutex` as it found it; `ttlCacheMutex` is
as before on the permanent path and has one more shared holder on the TTL
path. -/
theorem get_some_locks (s : StampyBucket) (r : GetResult) (key : String) (now : Time)
    (h : getValueWithKey s key now = some r) :
    r.bucket.cacheMutex = s.cacheMutex ∧
    r.bucket.ttlCacheMutex =
      if indexMarks s.ttlIndex key = true
      then { s.ttlCacheMutex with readers := s.ttlCacheMutex.readers + 1 }
      else s.ttlCacheMutex := by
  obtain ⟨kv, idx, st, ⟨cr, cw⟩, ⟨tr, tw⟩⟩ := s
  by_cases hi : indexMarks idx key = true
  · cases tw with
    | true => simp [getValueWithKey, hi, RWMutex.RLock] at h
    | false =>
      cases hk : kv key with
      | none =>
        simp [getValueWithKey, hi, RWMutex.RLock, hk] at h
        subst h
        simp [hi]
      | some e =>
        by_cases hb : e.ValidUntil < now
        · simp only [getValueWithKey, hi, RWMutex.RLock, hk, Before, hb] at h
          simp only [if_true, decide_True, Option.bind_eq_bind, Option.some_bind,
            Option.bind_eq_some, Option.pure_def] at h
          obtain ⟨s2, hdel, hr⟩ := h
          have hd := delete_some_locks _ _ _ hdel
          simp only [Option.some.injEq] at hr
          subst hr
          simpa [hi] using hd
        · simp [getValueWithKey, hi, RWMutex.RLock, hk, Before, hb] at h
          subst h
          simp [hi]
  · simp only [Bool.not_eq_true] at hi
    cases cw with
    | true => simp [getValueWithKey, hi, RWMutex.RLock] at h
    | false =>
      cases hk : kv key with
      | none =>
        simp [getValueWithKey, hi, RWMutex.RLock, RWMutex.RUnlock, hk] at h
        subst h
        simp [hi]
      | some e =>
        simp [getValueWithKey, hi, RWMutex.RLock, RWMutex.RUnlock, hk] at h
        subst h
        simp [hi]

/-- In every reachable bucket nobody holds `cacheMutex` and `ttlCacheMutex`
has no exclusive holder: between the calls of a single caller only shared
acquisitions of `ttlCacheMutex` can be outstanding. -/
theorem reachable_locks (s : StampyBucket) (hs : Reachable s) :
    s.cacheMutex = RWMutex.unlocked ∧ s.ttlCacheMutex.writer = false := by
  induction hs with
  | empty => exact ⟨rfl, rfl⟩
  | put key value validUntil now _ hput ih =>
    obtain ⟨h1, h2⟩ := put_some_locks _ _ _ _ _ _ hput
    rw [h1, h2]
    exact ih
  | get key now _ hget ih =>
    obtain ⟨h1, h2⟩ := get_some_locks _ _ _ _ hget
    rw [h1, h2]
    refine ⟨ih.1, ?_⟩
    split
    · exact ih.2
    · exact ih.2
  | delete key _ hdel ih =>
    obtain ⟨h1, h2⟩ := delete_some_locks _ _ _ hdel
    rw [h1, h2]
    exact ih

/-- The one-directional region invariant: every stored entry with a non-zero
expiry belongs to a key the index marks. -/
theorem ttl_entries_marked_step_mapDelete (kv : String → Option StampyBucketEntry)
    (idx : String → Option Bool) (key : String)
    (hinv : ∀ k e, kv k = some e → e.ValidUntil ≠ 0 → indexMarks idx k = true) :
    ∀ k e, mapDelete kv key k = some e → e.ValidUntil ≠ 0 → indexMarks idx k = true := by
  intro k e hk he
  by_cases hkk : k = key
  · subst hkk
    simp [mapDelete] at hk
  · rw [mapDelete_other _ _ _ hkk] at hk
    exact hinv k e hk he

/-- Repeated `uint64` increments that stay within range add up. -/
theorem uint64Inc_iterate_of_le (n c : Nat) (h : c + n ≤ maxUint64) :
    uint64Inc^[n] c = c + n := by
  induction n generalizing c with
  | zero => rfl
  | succ n ih =>
    rw [Function.iterate_succ_apply, uint64Inc_of_lt c (by omega), ih (c + 1) (by omega)]
    omega

/-- Repeated `uint64` increments of a `uint64` value: addition modulo `2 ^ 64`. -/
theorem uint64Inc_iterate_mod (n c : Nat) (h : c ≤ maxUint64) :
    uint64Inc^[n] c = (c + n) % 18446744073709551616 := by
  induction n generalizing c with
  | zero =>
    unfold maxUint64 at h
    simp only [Function.iterate_zero, id_eq, Nat.add_zero]
    exact (Nat.mod_eq_of_lt (by omega)).symm
  | succ n ih =>
    have hc : uint64Inc c ≤ maxUint64 := by
      unfold uint64Inc maxUint64
      omega
    rw [Function.iterate_succ_apply, ih (uint64Inc c) hc]
    unfold uint64Inc
    omega

/-! ## Inversion: what a returning call has done -/

/-- A get that returns has gone through one of its five paths, with the
result of that path. -/
theorem get_some_cases (s : StampyBucket) (r : GetResult) (key : String) (now : Time)
    (h : getValueWithKey s key now = some r) :
    (indexMarks s.ttlIndex key = true ∧ s.ttlCacheMutex.writer = false ∧
      ((s.keyValueCache key = none ∧
          r = { value := zeroEntry, err := some "Missing key",
                bucket := { s with
                  ttlCacheMutex := { s.ttlCacheMutex with
                    readers := s.ttlCacheMutex.readers + 1 } } }) ∨
       (∃ e, s.keyValueCache key = some e ∧ ¬ e.ValidUntil < now ∧
          r = { value := { e with LastAccessed := now }, err := none,
                bucket := { s with
                  stampyBucketStats := s.stampyBucketStats.incrementKeyHits
                  ttlCacheMutex := { s.ttlCacheMutex with
                    readers := s.ttlCacheMutex.readers + 1 } } }) ∨
       (∃ e, s.keyValueCache key = some e ∧ e.ValidUntil < now ∧
          s.cacheMutex = RWMutex.unlocked ∧
          r = { value := e, err := some "Expired key",
                bucket := { s with
                  keyValueCache := mapDelete s.keyValueCache key
                  stampyBucketStats :=
                    s.stampyBucketStats.incrementExpiredKeyHits.incrementKeyDeletes
                  ttlCacheMutex := { s.ttlCacheMutex with
                    readers := s.ttlCacheMutex.readers + 1 } } }))) ∨
    (indexMarks s.ttlIndex key = false ∧ s.cacheMutex.writer = false ∧
      ((s.keyValueCache key = none ∧
          r = { value := zeroEntry, err := some "Missing key",
                bucket := { s with
                  stampyBucketStats := s.stampyBucketStats.incrementAbsentKeyHits } }) ∨
       (∃ e, s.keyValueCache key = some e ∧
          r = { value := e, err := none,
                bucket := { s with
                  stampyBucketStats := s.stampyBucketStats.incrementKeyHits } }))) := by
  by_cases hi : indexMarks s.ttlIndex key = true
  · left
    have hw : s.ttlCacheMutex.writer = false := by
      obtain ⟨kv, idx, st, cm, ⟨tr, tw⟩⟩ := s
      cases tw with
      | true => simp [getValueWithKey, hi, RWMutex.RLock] at h
      | false => rfl
    refine ⟨hi, hw, ?_⟩
    cases hk : s.keyValueCache key with
    | none =>
      left
      rw [get_ttl_missing_eq s key now hi hk hw] at h
      exact ⟨rfl, (Option.some.inj h).symm⟩
    | some e =>
      right
      by_cases hb : e.ValidUntil < now
      · right
        have hc : s.cacheMutex = RWMutex.unlocked := by
          obtain ⟨kv, idx, st, ⟨cr, cw⟩, ⟨tr, tw⟩⟩ := s
          simp only at hw hk hi
          subst hw
          by_cases hl : cr = 0 ∧ cw = false
          · simp [RWMutex.unlocked, hl]
          · simp [getValueWithKey, hi, RWMutex.RLock, hk, Before, hb,
              deleteValueWithKeyIfPresent, RWMutex.Lock, hl] at h
        rw [get_ttl_expired_eq s key now e hi hk hb hw hc] at h
        exact ⟨e, rfl, hb, hc, (Option.some.inj h).symm⟩
      · left
        rw [get_ttl_hit_eq s key now e hi hk hb hw] at h
        exact ⟨e, rfl, hb, (Option.some.inj h).symm⟩
  · right
    simp only [Bool.not_eq_true] at hi
    have hw : s.cacheMutex.writer = false := by
      obtain ⟨kv, idx, st, ⟨cr, cw⟩, tm⟩ := s
      cases cw with
      | true => simp [getValueWithKey, hi, RWMutex.RLock] at h
      | false => rfl
    refine ⟨hi, hw, ?_⟩
    cases hk : s.keyValueCache key with
    | none =>
      left
      rw [get_permanent_miss_eq s key now hi hk hw] at h
      exact ⟨rfl, (Option.some.inj h).symm⟩
    | some e =>
      right
      rw [get_permanent_hit_eq s key now e hi hk hw] at h
      exact ⟨e, rfl, (Option.some.inj h).symm⟩

/-- A put that returns has run with the mutex of its path unheld. -/
theorem put_some_cases (s s1 : StampyBucket) (key value : String) (validUntil now : Time)
    (h : putKeyWithValue s key value validUntil now = some s1) :
    (validUntil = 0 ∧ s.cacheMutex = RWMutex.unlocked ∧
      s1 = { s with
        keyValueCache := mapSet s.keyValueCache key
          { EntryValue := value, CreationDate := now, LastAccessed := now, ValidUntil := 0 }
        stampyBucketStats :=
          { s.stampyBucketStats with KeyPuts := uint64Inc s.stampyBucketStats.KeyPuts } }) ∨
    (validUntil ≠ 0 ∧ s.ttlCacheMutex = RWMutex.unlocked ∧
      s1 = { s with
        keyValueCache := mapSet s.keyValueCache key
          { EntryValue := value, CreationDate := now, LastAccessed := now,
            ValidUntil := validUntil }
        ttlIndex := mapSet s.ttlIndex key true }) := by
  by_cases hv : validUntil = 0
  · left
    subst hv
    have hc : s.cacheMutex = RWMutex.unlocked := by
      obtain ⟨kv, idx, st, ⟨cr, cw⟩, tm⟩ := s
      by_cases hl : cr = 0 ∧ cw = false
      · simp [RWMutex.unlocked, hl]
      · simp [putKeyWithValue, IsZero, RWMutex.Lock, hl] at h
    rw [put_permanent_eq s key value now hc] at h
    exact ⟨rfl, hc, (Option.some.inj h).symm⟩
  · right
    have hm : s.ttlCacheMutex = RWMutex.unlocked := by
      by_contra hne
      rw [put_ttl_blocked s key value validUntil now hv hne] at h
      exact Option.noConfusion h
    rw [put_ttl_eq s key value validUntil now hv hm] at h
    exact ⟨hv, hm, (Option.some.inj h).symm⟩

/-- A delete that returns has either found no entry and done nothing, or
removed the entry with `cacheMutex` unheld. -/
theorem delete_some_cases (s s1 : StampyBucket) (key : String)
    (h : deleteValueWithKeyIfPresent s key = some s1) :
    (s.keyValueCache key = none ∧ s1 = s) ∨
    (∃ e, s.keyValueCache key = some e ∧ s.cacheMutex = RWMutex.unlocked ∧
      s1 = { s with
        keyValueCache := mapDelete s.keyValueCache key
        stampyBucketStats := s.stampyBucketStats.incrementKeyDeletes }) := by
  cases hk : s.keyValueCache key with
  | none =>
    left
    rw [delete_absent_eq s key hk] at h
    exact ⟨rfl, (Option.some.inj h).symm⟩
  | some e =>
    right
    have hc : s.cacheMutex = RWMutex.unlocked := by
      obtain ⟨kv, idx, st, ⟨cr, cw⟩, tm⟩ := s
      simp only at hk
      by_cases hl : cr = 0 ∧ cw = false
      · simp [RWMutex.unlocked, hl]
      · simp [deleteValueWithKeyIfPresent, hk, RWMutex.Lock, hl] at h
    rw [delete_present_eq s key e hk hc] at h
    exact ⟨e, rfl, hc, (Option.some.inj h).symm⟩

/-! ## Counters move by at most one `uint64` increment -/

theorem le_uint64Inc (a : Nat) (h : a < maxUint64) : a ≤ uint64Inc a := by
  rw [uint64Inc_of_lt a h]
  exact Nat.le_succ a

theorem counterStep_refl (a : Nat) : counterStep a a :=
  ⟨Or.inl rfl, fun _ => le_refl _, fun _ => Or.inl rfl⟩

theorem counterStep_inc (a : Nat) : counterStep a (uint64Inc a) := by
  refine ⟨Or.inr rfl, fun h => le_uint64Inc a h, fun h => ?_⟩
  right
  rw [h]
  exact uint64Inc_max

theorem countersStep_refl (a : StampyBucketStats) : countersStep a a :=
  ⟨counterStep_refl _, counterStep_refl _, counterStep_refl _, counterStep_refl _,
    counterStep_refl _, counterStep_refl _⟩

theorem countersStep_incrementKeyPuts (a : StampyBucketStats) :
    countersStep a a.incrementKeyPuts :=
  ⟨counterStep_inc _, counterStep_refl _, counterStep_refl _, counterStep_refl _,
    counterStep_refl _, counterStep_refl _⟩

theorem countersStep_incrementKeyDeletes (a : StampyBucketStats) :
    countersStep a a.incrementKeyDeletes :=
  ⟨counterStep_refl _, counterStep_inc _, counterStep_refl _, counterStep_refl _,
    counterStep_refl _, counterStep_refl _⟩

theorem countersStep_incrementKeyHits (a : StampyBucketStats) :
    countersStep a a.incrementKeyHits :=
  ⟨counterStep_refl _, counterStep_refl _, counterStep_inc _, counterStep_refl _,
    counterStep_refl _, counterStep_refl _⟩

theorem countersStep_incrementAbsentKeyHits (a : StampyBucketStats) :
    countersStep a a.incrementAbsentKeyHits :=
  ⟨counterStep_refl _, counterStep_refl _, counterStep_refl _, counterStep_inc _,
    counterStep_refl _, counterStep_refl _⟩

theorem countersStep_incrementExpiredKeys (a : StampyBucketStats) :
    countersStep a a.incrementExpiredKeys :=
  ⟨counterStep_refl _, counterStep_refl _, counterStep_refl _, counterStep_refl _,
    counterStep_inc _, counterStep_refl _⟩

theorem countersStep_incrementExpiredKeyHits (a : StampyBucketStats) :
    countersStep a a.incrementExpiredKeyHits :=
  ⟨counterStep_refl _, counterStep_refl _, counterStep_refl _, counterStep_refl _,
    counterStep_refl _, counterStep_inc _⟩

theorem countersStep_expired (a : StampyBucketStats) :
    countersStep a a.incrementExpiredKeyHits.incrementKeyDeletes :=
  ⟨counterStep_refl _, counterStep_inc _, counterStep_refl _, counterStep_refl _,
    counterStep_refl _, counterStep_inc _⟩

/-- The counters after a returning put. -/
theorem put_some_stats (s s1 : StampyBucket) (key value : String) (validUntil now : Time)
    (h : putKeyWithValue s key value validUntil now = some s1) :
    s1.stampyBucketStats = s.stampyBucketStats.incrementKeyPuts ∨
    s1.stampyBucketStats = s.stampyBucketStats := by
  rcases put_some_cases s s1 key value validUntil now h with ⟨_, _, hs⟩ | ⟨_, _, hs⟩
  · left
    rw [hs]
    rfl
  · right
    rw [hs]

/-- The counters after a returning delete. -/
theorem delete_some_stats (s s1 : StampyBucket) (key : String)
    (h : deleteValueWithKeyIfPresent s key = some s1) :
    s1.stampyBucketStats = s.stampyBucketStats ∨
    s1.stampyBucketStats = s.stampyBucketStats.incrementKeyDeletes := by
  rcases delete_some_cases s s1 key h with ⟨_, hs⟩ | ⟨e, _, _, hs⟩
  · left
    rw [hs]
  · right
    rw [hs]

/-- The counters after a returning get. -/
theorem get_some_stats (s : StampyBucket) (r : GetResult) (key : String) (now : Time)
    (h : getValueWithKey s key now = some r) :
    r.bucket.stampyBucketStats = s.stampyBucketStats ∨
    r.bucket.stampyBucketStats = s.stampyBucketStats.incrementKeyHits ∨
    r.bucket.stampyBucketStats = s.stampyBucketStats.incrementAbsentKeyHits ∨
    r.bucket.stampyBucketStats =
      s.stampyBucketStats.incrementExpiredKeyHits.incrementKeyDeletes := by
  rcases get_some_cases s r key now h with
    ⟨_, _, ⟨_, hr⟩ | ⟨e, _, _, hr⟩ | ⟨e, _, _, _, hr⟩⟩ | ⟨_, _, ⟨_, hr⟩ | ⟨e, _, hr⟩⟩
  · left
    rw [hr]
  · right
    left
    rw [hr]
  · right
    right
    right
    rw [hr]
  · right
    right
    left
    rw [hr]
  · right
    left
    rw [hr]

/-- No reachable bucket has counted an expired key. -/
theorem reachable_expiredKeys (s : StampyBucket) (hs : Reachable s) :
    s.stampyBucketStats.ExpiredKeys = 0 := by
  induction hs with
  | empty => rfl
  | put key value validUntil now _ hput ih =>
    rcases put_some_stats _ _ _ _ _ _ hput with h | h
    · rw [h]
      exact ih
    · rw [h]
      exact ih
  | get key now _ hget ih =>
    rcases get_some_stats _ _ _ _ hget with h | h | h | h
    · rw [h]
      exact ih
    · rw [h]
      exact ih
    · rw [h]
      exact ih
    · rw [h]
      exact ih
  | delete key _ hdel ih =>
    rcases delete_some_stats _ _ _ hdel with h | h
    · rw [h]
      exact ih
    · rw [h]
      exact ih

/-- A mark of the membership index survives every sequence of returning calls. -/
theorem steps_index (s s1 : StampyBucket) (hs : Steps s s1) (k : String)
    (hi : indexMarks s.ttlIndex k = true) : indexMarks s1.ttlIndex k = true := by
  induction hs with
  | refl => exact hi
  | put key value validUntil now _ hput ih =>
    rw [(put_some_data _ _ _ _ _ _ hput).2]
    by_cases hv : validUntil = 0
    · simpa [hv] using ih
    · by_cases hk : k = key
      · simp [hv, hk, indexMarks, mapSet]
      · simpa [hv, hk, indexMarks, mapSet] using ih
  | get key now _ hget ih =>
    rw [(get_some_data _ _ _ _ hget).1]
    exact ih
  | delete key _ hdel ih =>
    rw [(delete_some_data _ _ _ hdel).1]
    exact ih

/-! ## Put-then-get round trip for permanent entries (C1) -/

/-- C1, the code at the failing input.  From the empty bucket,
`putKeyWithValue("k", "old", 5)` at clock 1 marks `"k"` in the membership
index; `putKeyWithValue("k", "v", zero time)` at clock 2 stores the permanent
entry of `"k"` and leaves the mark.  `getValueWithKey("k")` at clock 3 then
takes the TTL branch, finds the zero `ValidUntil` before the clock, returns
the error `Expired key` instead of `nil` and removes the permanent entry. -/
theorem put_get_permanent_stale_index :
    ∃ s1 s2 r, putKeyWithValue emptyBucket "k" "old" 5 1 = some s1 ∧
      putKeyWithValue s1 "k" "v" 0 2 = some s2 ∧
      s2.keyValueCache "k" =
        some { EntryValue := "v", CreationDate := 2, LastAccessed := 2, ValidUntil := 0 } ∧
      indexMarks s2.ttlIndex "k" = true ∧
      getValueWithKey s2 "k" 3 = some r ∧
      r.value.EntryValue = "v" ∧ r.err = some "Expired key" ∧
      r.bucket.keyValueCache "k" = none :=
  ⟨_, _, _, rfl, rfl, rfl, rfl, rfl, rfl, rfl, rfl⟩

/-- Where the round trip does work: on a bucket whose membership index does
not mark `k` (and whose `cacheMutex` nobody holds), `putKeyWithValue(k, v,
zero time)` returns and the following `getValueWithKey(k)`, at any clock,
returns the entry just written, whose `EntryValue` is `v`, together with a
`nil` error. -/
theorem put_get_permanent_roundtrip (s : StampyBucket) (k v : String) (now later : Time)
    (hi : indexMarks s.ttlIndex k = false) (hc : s.cacheMutex = RWMutex.unlocked) :
    ∃ s1 r, putKeyWithValue s k v 0 now = some s1 ∧
      getValueWithKey s1 k later = some r ∧
      r.value =
        { EntryValue := v, CreationDate := now, LastAccessed := now, ValidUntil := 0 } ∧
      r.value.EntryValue = v ∧ r.err = none := by
  have hget := get_permanent_hit_eq
    { s with
      keyValueCache := mapSet s.keyValueCache k
        { EntryValue := v, CreationDate := now, LastAccessed := now, ValidUntil := 0 }
      stampyBucketStats :=
        { s.stampyBucketStats with KeyPuts := uint64Inc s.stampyBucketStats.KeyPuts } }
    k later _ hi (mapSet_same _ _ _) (by simp [hc, RWMutex.unlocked])
  exact ⟨_, _, put_permanent_eq s k v now hc, hget, rfl, rfl, rfl⟩

/-- The round trip on the empty bucket, key `"k"`, value `"v"`. -/
theorem put_get_permanent_roundtrip_witness :
    indexMarks emptyBucket.ttlIndex "k" = false ∧
    emptyBucket.cacheMutex = RWMutex.unlocked ∧
    ∃ s1 r, putKeyWithValue emptyBucket "k" "v" 0 1 = some s1 ∧
      getValueWithKey s1 "k" 2 = some r ∧
      r.value =
        { EntryValue := "v", CreationDate := 1, LastAccessed := 1, ValidUntil := 0 } ∧
      r.value.EntryValue = "v" ∧ r.err = none :=
  ⟨rfl, rfl, put_get_permanent_roundtrip emptyBucket "k" "v" 1 2 rfl rfl⟩

/-! ## TTL expiry sequence (C2) -/

/-- C2, counterexample.  First part: after one expiry cycle on the empty
bucket (`putKeyWithValue("k", "v", 5)`, then `getValueWithKey("k")` at clock 6,
which reports `Expired key`) the next `putKeyWithValue("k", "v", 9)` never
returns, so on that bucket the sequence of the claim does not take place.
Second part: on a bucket whose `ExpiredKeyHits` is the largest `uint64` the
expired read leaves `ExpiredKeyHits` at 0. -/
theorem ttl_expiry_counterexample :
    (∃ s1 r, putKeyWithValue emptyBucket "k" "v" 5 1 = some s1 ∧
      getValueWithKey s1 "k" 6 = some r ∧ r.err = some "Expired key" ∧
      putKeyWithValue r.bucket "k" "v" 9 7 = none) ∧
    (∃ s1 r, putKeyWithValue saturatedBucket "k" "v" 5 1 = some s1 ∧
      getValueWithKey s1 "k" 6 = some r ∧ r.err = some "Expired key" ∧
      s1.stampyBucketStats.ExpiredKeyHits = 18446744073709551615 ∧
      r.bucket.stampyBucketStats.ExpiredKeyHits = 0) :=
  ⟨⟨_, _, rfl, rfl, rfl, rfl⟩, ⟨_, _, rfl, rfl, rfl, rfl, rfl⟩⟩

/-- C2, amended: for every bucket whose two mutexes nobody holds, every key
`k`, value `v` and non-zero expiry `t`: `putKeyWithValue(k, v, t)` returns; a
`getValueWithKey(k)` at a clock strictly after `t` returns the error
`Expired key` together with the stale entry (`EntryValue` `v`), adds one to
`ExpiredKeyHits` modulo `2 ^ 64` (exactly one when the counter is below the
largest `uint64`) and removes the entry; a second `getValueWithKey(k)` at any
clock returns the error `Missing key`. -/
theorem ttl_expiry_sequence (s : StampyBucket) (k v : String) (t now1 now2 now3 : Time)
    (ht : t ≠ 0) (hlate : t < now2)
    (hc : s.cacheMutex = RWMutex.unlocked) (hm : s.ttlCacheMutex = RWMutex.unlocked) :
    ∃ s1 r1 r2, putKeyWithValue s k v t now1 = some s1 ∧
      getValueWithKey s1 k now2 = some r1 ∧
      r1.err = some "Expired key" ∧
      r1.value =
        { EntryValue := v, CreationDate := now1, LastAccessed := now1, ValidUntil := t } ∧
      r1.value.EntryValue = v ∧
      r1.bucket.stampyBucketStats.ExpiredKeyHits =
        uint64Inc s1.stampyBucketStats.ExpiredKeyHits ∧
      (s1.stampyBucketStats.ExpiredKeyHits < maxUint64 →
        r1.bucket.stampyBucketStats.ExpiredKeyHits =
          s1.stampyBucketStats.ExpiredKeyHits + 1) ∧
      r1.bucket.keyValueCache k = none ∧
      getValueWithKey r1.bucket k now3 = some r2 ∧
      r2.err = some "Missing key" := by
  have hput := put_ttl_eq s k v t now1 ht hm
  have hget1 := get_ttl_expired_eq
    { s with
      keyValueCache := mapSet s.keyValueCache k
        { EntryValue := v, CreationDate := now1, LastAccessed := now1, ValidUntil := t }
      ttlIndex := mapSet s.ttlIndex k true }
    k now2 _ (by simp [indexMarks, mapSet]) (mapSet_same _ _ _)
    hlate (by simp [hm, RWMutex.unlocked]) hc
  refine ⟨_, _, _, hput, hget1, rfl, rfl, rfl, rfl, fun h => uint64Inc_of_lt _ h,
    mapDelete_same _ _, get_ttl_missing_eq _ k now3 ?_ ?_ ?_, rfl⟩
  · simp [indexMarks, mapSet]
  · exact mapDelete_same _ _
  · simp [hm, RWMutex.unlocked]

/-- C2, witness of the amended claim: the empty bucket, expiry 5, reads at
clocks 6 and 7. -/
theorem ttl_expiry_sequence_witness :
    ((5 : Time) ≠ 0 ∧ (5 : Time) < 6 ∧ emptyBucket.cacheMutex = RWMutex.unlocked ∧
      emptyBucket.ttlCacheMutex = RWMutex.unlocked) ∧
    ∃ s1 r1 r2, putKeyWithValue emptyBucket "k" "v" 5 1 = some s1 ∧
      getValueWithKey s1 "k" 6 = some r1 ∧
      r1.err = some "Expired key" ∧
      r1.value =
        { EntryValue := "v", CreationDate := 1, LastAccessed := 1, ValidUntil := 5 } ∧
      r1.value.EntryValue = "v" ∧
      r1.bucket.stampyBucketStats.ExpiredKeyHits =
        uint64Inc s1.stampyBucketStats.ExpiredKeyHits ∧
      (s1.stampyBucketStats.ExpiredKeyHits < maxUint64 →
        r1.bucket.stampyBucketStats.ExpiredKeyHits =
          s1.stampyBucketStats.ExpiredKeyHits + 1) ∧
      r1.bucket.keyValueCache "k" = none ∧
      getValueWithKey r1.bucket "k" 7 = some r2 ∧
      r2.err = some "Missing key" :=
  ⟨⟨by decide, by decide, rfl, rfl⟩,
    ttl_expiry_sequence emptyBucket "k" "v" 5 1 6 7 (by decide) (by decide) rfl rfl⟩

/-! ## Lock release on every exit path (C3) -/

/-- C3, the code at the failing input: `ttlBucket` is the empty bucket after
`putKeyWithValue("k", "v", 5)`, both mutexes not held.  `getValueWithKey("k")`
at clock 2 (hit), at clock 6 (expired) and once more at clock 7 (missing key)
each return with one more shared holder of `ttlCacheMutex` than on entry: the
`RLock` of the TTL path is released on none of its three return paths. -/
theorem ttl_get_keeps_shared_lock :
    putKeyWithValue emptyBucket "k" "v" 5 1 = some ttlBucket ∧
    ttlBucket.ttlCacheMutex = { readers := 0, writer := false } ∧
    (∃ r, getValueWithKey ttlBucket "k" 2 = some r ∧ r.err = none ∧
      r.bucket.ttlCacheMutex = { readers := 1, writer := false }) ∧
    (∃ r1 r2, getValueWithKey ttlBucket "k" 6 = some r1 ∧ r1.err = some "Expired key" ∧
      r1.bucket.ttlCacheMutex = { readers := 1, writer := false } ∧
      getValueWithKey r1.bucket "k" 7 = some r2 ∧ r2.err = some "Missing key" ∧
      r2.bucket.ttlCacheMutex = { readers := 2, writer := false }) :=
  ⟨rfl, rfl, ⟨_, rfl, rfl, rfl⟩, ⟨_, _, rfl, rfl, rfl, rfl, rfl, rfl⟩⟩

/-! ## Expiry boundary (C4) -/

/-- C4, counterexample: in `ttlBucket` the key `"k"` is marked and holds an
entry with expiry 5; `getValueWithKey("k")` at clock exactly 5 returns the
entry with a `nil` error, not the error `Expired key`. -/
theorem expiry_boundary_counterexample :
    indexMarks ttlBucket.ttlIndex "k" = true ∧
    ttlBucket.keyValueCache "k" =
      some { EntryValue := "v", CreationDate := 1, LastAccessed := 1, ValidUntil := 5 } ∧
    ∃ r, getValueWithKey ttlBucket "k" 5 = some r ∧ r.err = none ∧
      r.value = { EntryValue := "v", CreationDate := 1, LastAccessed := 5, ValidUntil := 5 } :=
  ⟨rfl, rfl, _, rfl, rfl, rfl⟩

/-- C4, amended: for every bucket in which `k` is marked in the membership
index and has an entry `e` (no exclusive holder of `ttlCacheMutex`, nobody
holding `cacheMutex`) and every clock value `now`, `getValueWithKey(k)`
returns; its error is `Expired key` if and only if `e.ValidUntil` is strictly
before `now`, in which case the stale entry `e` is returned; otherwise (so
also at `now = e.ValidUntil`) the error is `nil` and the returned entry is `e`
with `LastAccessed` set to `now`. -/
theorem expiry_boundary (s : StampyBucket) (k : String) (e : StampyBucketEntry) (now : Time)
    (hi : indexMarks s.ttlIndex k = true) (h : s.keyValueCache k = some e)
    (ht : s.ttlCacheMutex.writer = false) (hc : s.cacheMutex = RWMutex.unlocked) :
    ∃ r, getValueWithKey s k now = some r ∧
      (r.err = some "Expired key" ↔ e.ValidUntil < now) ∧
      (e.ValidUntil < now → r.value = e) ∧
      (now ≤ e.ValidUntil → r.err = none ∧ r.value = { e with LastAccessed := now }) := by
  by_cases hb : e.ValidUntil < now
  · refine ⟨_, get_ttl_expired_eq s k now e hi h hb ht hc, ?_, ?_, ?_⟩
    · simp [hb]
    · intro _
      rfl
    · intro hle
      exact absurd hb (not_lt.mpr hle)
  · refine ⟨_, get_ttl_hit_eq s k now e hi h hb ht, ?_, ?_, ?_⟩
    · simp [hb]
    · intro hlt
      exact absurd hlt hb
    · intro _
      exact ⟨rfl, rfl⟩

/-- C4, witness of the amended claim: `ttlBucket`, key `"k"`, clock 6. -/
theorem expiry_boundary_witness :
    (indexMarks ttlBucket.ttlIndex "k" = true ∧
      ttlBucket.keyValueCache "k" =
        some { EntryValue := "v", CreationDate := 1, LastAccessed := 1, ValidUntil := 5 } ∧
      ttlBucket.ttlCacheMutex.writer = false ∧ ttlBucket.cacheMutex = RWMutex.unlocked) ∧
    ∃ r, getValueWithKey ttlBucket "k" 6 = some r ∧
      (r.err = some "Expired key" ↔ (5 : Time) < 6) ∧
      ((5 : Time) < 6 → r.value =
        { EntryValue := "v", CreationDate := 1, LastAccessed := 1, ValidUntil := 5 }) ∧
      ((6 : Time) ≤ 5 → r.err = none ∧ r.value =
        { EntryValue := "v", CreationDate := 1, LastAccessed := 6, ValidUntil := 5 }) :=
  ⟨⟨rfl, rfl, rfl, rfl⟩,
    expiry_boundary ttlBucket "k"
      { EntryValue := "v", CreationDate := 1, LastAccessed := 1, ValidUntil := 5 } 6
      rfl rfl rfl rfl⟩

/-! ## Region/index consistency (C5) -/

/-- C5, the code at the failing input: the bucket reached from the empty one
by `putKeyWithValue("k", "old", 5)` at clock 1 followed by
`putKeyWithValue("k", "v", zero time)` at clock 2 holds `"k"` as a permanent
entry (zero `ValidUntil`) while the membership index still marks `"k"` as
TTL-governed. -/
theorem region_index_stale_mark :
    ∃ s e, Reachable s ∧ s.keyValueCache "k" = some e ∧ e.ValidUntil = 0 ∧
      indexMarks s.ttlIndex "k" = true := by
  have h1 : putKeyWithValue emptyBucket "k" "old" 5 1 = some
      { emptyBucket with
        keyValueCache := mapSet mapEmpty "k"
          { EntryValue := "old", CreationDate := 1, LastAccessed := 1, ValidUntil := 5 }
        ttlIndex := mapSet mapEmpty "k" true } := rfl
  have r1 := Reachable.put "k" "old" 5 1 Reachable.empty h1
  exact ⟨_, _, Reachable.put "k" "v" 0 2 r1 rfl, rfl, rfl, rfl⟩

/-- The half of the region invariant the code does keep: in every bucket
reachable from the empty one by the three operations, every key whose stored
entry is a TTL entry (non-zero `ValidUntil`) is marked in the membership
index. -/
theorem ttl_entry_is_marked (s : StampyBucket) (hs : Reachable s) (k : String)
    (e : StampyBucketEntry) (hk : s.keyValueCache k = some e) (he : e.ValidUntil ≠ 0) :
    indexMarks s.ttlIndex k = true := by
  induction hs generalizing k e with
  | empty => simp [emptyBucket, mapEmpty] at hk
  | put key value validUntil now _ hput ih =>
    obtain ⟨hkv, hidx⟩ := put_some_data _ _ _ _ _ _ hput
    rw [hkv] at hk
    rw [hidx]
    by_cases hkk : k = key
    · subst hkk
      rw [mapSet_same] at hk
      simp only [Option.some.injEq] at hk
      subst hk
      simp only at he
      simp [he, indexMarks, mapSet]
    · rw [mapSet_other _ _ _ _ hkk] at hk
      have := ih k e hk he
      by_cases hv : validUntil = 0
      · simpa [hv] using this
      · simpa [hv, indexMarks, mapSet, hkk] using this
  | get key now _ hget ih =>
    obtain ⟨hidx, hkv⟩ := get_some_data _ _ _ _ hget
    rw [hidx]
    rcases hkv with hkv | hkv
    · rw [hkv] at hk
      exact ih k e hk he
    · rw [hkv] at hk
      exact ttl_entries_marked_step_mapDelete _ _ key ih k e hk he
  | delete key _ hdel ih =>
    obtain ⟨hidx, hkv⟩ := delete_some_data _ _ _ hdel
    rw [hidx]
    rcases hkv with hkv | hkv
    · rw [hkv] at hk
      exact ih k e hk he
    · rw [hkv] at hk
      exact ttl_entries_marked_step_mapDelete _ _ key ih k e hk he

/-- The kept half of the invariant at `ttlBucket`, which is reachable and
holds the TTL entry of `"k"`. -/
theorem ttl_entry_is_marked_witness :
    (Reachable ttlBucket ∧
      ttlBucket.keyValueCache "k" =
        some { EntryValue := "v", CreationDate := 1, LastAccessed := 1, ValidUntil := 5 } ∧
      (5 : Time) ≠ 0) ∧
    indexMarks ttlBucket.ttlIndex "k" = true :=
  have hr : Reachable ttlBucket := Reachable.put "k" "v" 5 1 Reachable.empty rfl
  ⟨⟨hr, rfl, by decide⟩,
    ttl_entry_is_marked ttlBucket hr "k"
      { EntryValue := "v", CreationDate := 1, LastAccessed := 1, ValidUntil := 5 }
      rfl (by decide)⟩

/-! ## Absent key (C6) -/

/-- C6, counterexample: on `saturatedBucket` (no entries, no marks,
`AbsentKeyHits` the largest `uint64`) `getValueWithKey("missing")` returns
`Missing key` and leaves `AbsentKeyHits` at 0: the counter does not grow by 1. -/
theorem absent_key_counterexample :
    saturatedBucket.keyValueCache "missing" = none ∧
    indexMarks saturatedBucket.ttlIndex "missing" = false ∧
    saturatedBucket.stampyBucketStats.AbsentKeyHits = 18446744073709551615 ∧
    ∃ r, getValueWithKey saturatedBucket "missing" 1 = some r ∧
      r.err = some "Missing key" ∧ r.bucket.stampyBucketStats.AbsentKeyHits = 0 :=
  ⟨rfl, rfl, rfl, _, rfl, rfl, rfl⟩

/-- C6, amended: for every bucket (no exclusive holder of `cacheMutex`) and
every key that has no stored entry and is not marked in the membership index,
`getValueWithKey(key)` returns the error `Missing key` with the zero entry,
adds one to `AbsentKeyHits` modulo `2 ^ 64` (exactly one when the counter is
below the largest `uint64`), and leaves every other counter, the mapping, the
index and both mutexes unchanged. -/
theorem absent_key_get (s : StampyBucket) (key : String) (now : Time)
    (h : s.keyValueCache key = none) (hi : indexMarks s.ttlIndex key = false)
    (hc : s.cacheMutex.writer = false) :
    getValueWithKey s key now =
      some { value := zeroEntry, err := some "Missing key",
             bucket := { s with
               stampyBucketStats := { s.stampyBucketStats with
                 AbsentKeyHits := uint64Inc s.stampyBucketStats.AbsentKeyHits } } } ∧
    (s.stampyBucketStats.AbsentKeyHits < maxUint64 →
      uint64Inc s.stampyBucketStats.AbsentKeyHits = s.stampyBucketStats.AbsentKeyHits + 1) :=
  ⟨get_permanent_miss_eq s key now hi h hc, fun hlt => uint64Inc_of_lt _ hlt⟩

/-- C6, witness of the amended claim: the empty bucket and the key `"missing"`. -/
theorem absent_key_get_witness :
    (emptyBucket.keyValueCache "missing" = none ∧
      indexMarks emptyBucket.ttlIndex "missing" = false ∧
      emptyBucket.cacheMutex.writer = false) ∧
    getValueWithKey emptyBucket "missing" 1 =
      some { value := zeroEntry, err := some "Missing key",
             bucket := { emptyBucket with
               stampyBucketStats := { emptyBucket.stampyBucketStats with
                 AbsentKeyHits := uint64Inc emptyBucket.stampyBucketStats.AbsentKeyHits } } } ∧
    (emptyBucket.stampyBucketStats.AbsentKeyHits < maxUint64 →
      uint64Inc emptyBucket.stampyBucketStats.AbsentKeyHits =
        emptyBucket.stampyBucketStats.AbsentKeyHits + 1) :=
  ⟨⟨rfl, rfl, rfl⟩, absent_key_get emptyBucket "missing" 1 rfl rfl rfl⟩

/-! ## Delete of an existing key (C7) -/

/-- C7, counterexample: `saturatedEntryBucket` holds an entry for `"k"` and
its `KeyDeletes` is the largest `uint64`; `deleteValueWithKeyIfPresent("k")`
removes the entry and leaves `KeyDeletes` at 0: the counter does not grow by 1. -/
theorem delete_existing_counterexample :
    saturatedEntryBucket.keyValueCache "k" =
      some { EntryValue := "v", CreationDate := 1, LastAccessed := 1, ValidUntil := 0 } ∧
    saturatedEntryBucket.stampyBucketStats.KeyDeletes = 18446744073709551615 ∧
    ∃ s1, deleteValueWithKeyIfPresent saturatedEntryBucket "k" = some s1 ∧
      s1.keyValueCache "k" = none ∧ s1.stampyBucketStats.KeyDeletes = 0 :=
  ⟨rfl, rfl, _, rfl, rfl, rfl⟩

/-- C7, amended: for every bucket (nobody holding `cacheMutex`, no exclusive
holder of `ttlCacheMutex`) and every key `k` that has a stored entry,
`deleteValueWithKeyIfPresent(k)` returns, removes exactly that entry (the
entries of all other keys, the index and both mutexes unchanged), adds one to
`KeyDeletes` modulo `2 ^ 64` (exactly one when the counter is below the
largest `uint64`) and changes no other counter; a following
`getValueWithKey(k)` returns the error `Missing key`. -/
theorem delete_existing (s : StampyBucket) (k : String) (e : StampyBucketEntry) (now : Time)
    (h : s.keyValueCache k = some e) (hc : s.cacheMutex = RWMutex.unlocked)
    (ht : s.ttlCacheMutex.writer = false) :
    ∃ s1 r, deleteValueWithKeyIfPresent s k = some s1 ∧
      s1 = { s with
        keyValueCache := mapDelete s.keyValueCache k
        stampyBucketStats := { s.stampyBucketStats with
          KeyDeletes := uint64Inc s.stampyBucketStats.KeyDeletes } } ∧
      s1.keyValueCache k = none ∧
      (∀ j, j ≠ k → s1.keyValueCache j = s.keyValueCache j) ∧
      (s.stampyBucketStats.KeyDeletes < maxUint64 →
        s1.stampyBucketStats.KeyDeletes = s.stampyBucketStats.KeyDeletes + 1) ∧
      getValueWithKey s1 k now = some r ∧ r.err = some "Missing key" := by
  have hdel := delete_present_eq s k e h hc
  by_cases hi : indexMarks s.ttlIndex k = true
  · exact ⟨_, _, hdel, rfl, mapDelete_same _ _, fun j hj => mapDelete_other _ _ _ hj,
      fun hlt => uint64Inc_of_lt _ hlt,
      get_ttl_missing_eq _ k now hi (mapDelete_same _ _) ht, rfl⟩
  · simp only [Bool.not_eq_true] at hi
    exact ⟨_, _, hdel, rfl, mapDelete_same _ _, fun j hj => mapDelete_other _ _ _ hj,
      fun hlt => uint64Inc_of_lt _ hlt,
      get_permanent_miss_eq _ k now hi (mapDelete_same _ _) (by simp [hc, RWMutex.unlocked]),
      rfl⟩

/-- C7, witness of the amended claim: `permanentBucket` and its key `"k"`. -/
theorem delete_existing_witness :
    (permanentBucket.keyValueCache "k" =
        some { EntryValue := "v", CreationDate := 1, LastAccessed := 1, ValidUntil := 0 } ∧
      permanentBucket.cacheMutex = RWMutex.unlocked ∧
      permanentBucket.ttlCacheMutex.writer = false) ∧
    ∃ s1 r, deleteValueWithKeyIfPresent permanentBucket "k" = some s1 ∧
      s1 = { permanentBucket with
        keyValueCache := mapDelete permanentBucket.keyValueCache "k"
        stampyBucketStats := { permanentBucket.stampyBucketStats with
          KeyDeletes := uint64Inc permanentBucket.stampyBucketStats.KeyDeletes } } ∧
      s1.keyValueCache "k" = none ∧
      (∀ j, j ≠ "k" → s1.keyValueCache j = permanentBucket.keyValueCache j) ∧
      (permanentBucket.stampyBucketStats.KeyDeletes < maxUint64 →
        s1.stampyBucketStats.KeyDeletes = permanentBucket.stampyBucketStats.KeyDeletes + 1) ∧
      getValueWithKey s1 "k" 2 = some r ∧ r.err = some "Missing key" :=
  ⟨⟨rfl, rfl, rfl⟩,
    delete_existing permanentBucket "k"
      { EntryValue := "v", CreationDate := 1, LastAccessed := 1, ValidUntil := 0 } 2
      rfl rfl rfl⟩

/-! ## Delete idempotence (C8) -/

/-- C8: for every bucket and every key `k` with no stored entry,
`deleteValueWithKeyIfPresent(k)` returns and leaves the whole bucket (mapping,
membership index, all six counters, both mutexes) unchanged; and for every
bucket and key, calling `deleteValueWithKeyIfPresent(k)` twice yields the same
outcome as calling it once. -/
theorem delete_idempotent (s : StampyBucket) (k : String) :
    (s.keyValueCache k = none → deleteValueWithKeyIfPresent s k = some s) ∧
    (deleteValueWithKeyIfPresent s k).bind (fun s1 => deleteValueWithKeyIfPresent s1 k) =
      deleteValueWithKeyIfPresent s k := by
  refine ⟨delete_absent_eq s k, ?_⟩
  cases hk : s.keyValueCache k with
  | none => simp [delete_absent_eq s k hk]
  | some e =>
    cases hd : deleteValueWithKeyIfPresent s k with
    | none => rfl
    | some s1 =>
      have hkv := (delete_some_data s s1 k hd).2
      have hnone : s1.keyValueCache k = none := by
        rcases hkv with hkv | hkv
        · exfalso
          obtain ⟨kv, idx, st, ⟨cr, cw⟩, tm⟩ := s
          simp only at hk
          by_cases hl : cr = 0 ∧ cw = false
          · simp [deleteValueWithKeyIfPresent, hk, RWMutex.Lock, RWMutex.Unlock, hl] at hd
            subst hd
            simp only at hkv
            have := congrFun hkv k
            simp [mapDelete, hk] at this
          · simp [deleteValueWithKeyIfPresent, hk, RWMutex.Lock, hl] at hd
        · rw [hkv]
          exact mapDelete_same _ _
      simp [delete_absent_eq s1 k hnone]

/-- C8, at concrete inputs: deleting the entry-less key `"k"` of the empty
bucket changes nothing, and on `permanentBucket`, where `"k"` has an entry,
the second delete changes nothing after the first. -/
theorem delete_idempotent_witness :
    deleteValueWithKeyIfPresent emptyBucket "k" = some emptyBucket ∧
    (deleteValueWithKeyIfPresent permanentBucket "k").bind
        (fun s1 => deleteValueWithKeyIfPresent s1 "k") =
      deleteValueWithKeyIfPresent permanentBucket "k" :=
  ⟨(delete_idempotent emptyBucket "k").1 rfl, (delete_idempotent permanentBucket "k").2⟩

/-! ## Hit counting (C9) -/

/-- C9, counterexample: `saturatedEntryBucket` holds a permanent, unmarked
entry for `"k"` and its `KeyHits` is the largest `uint64`; three consecutive
`getValueWithKey("k")` calls all succeed and leave `KeyHits` at 2: the counter
does not grow by 3. -/
theorem hit_counting_counterexample :
    indexMarks saturatedEntryBucket.ttlIndex "k" = false ∧
    saturatedEntryBucket.stampyBucketStats.KeyHits = 18446744073709551615 ∧
    ∃ r1 r2 r3 s1, getValueWithKeyTimes saturatedEntryBucket "k" [2, 3, 4] =
        some ([r1, r2, r3], s1) ∧
      r1.err = none ∧ r2.err = none ∧ r3.err = none ∧
      s1.stampyBucketStats.KeyHits = 2 :=
  ⟨rfl, rfl, _, _, _, _, rfl, rfl, rfl, rfl, rfl⟩

/-- C9, amended: for every bucket in which `k` holds an entry `e` and is not
marked in the membership index (no exclusive holder of `cacheMutex`) and for
every number `n` of consecutive `getValueWithKey(k)` calls (at any clock
values), all `n` calls return `e` with a `nil` error, `KeyHits` is incremented
`n` times modulo `2 ^ 64` (it grows by exactly `n` when `KeyHits + n` does not
exceed the largest `uint64`), and the five other counters, the mapping, the
index and both mutexes are unchanged. -/
theorem hit_counting (s : StampyBucket) (k : String) (e : StampyBucketEntry)
    (nows : List Time)
    (hi : indexMarks s.ttlIndex k = false) (h : s.keyValueCache k = some e)
    (hc : s.cacheMutex.writer = false) :
    ∃ rs, getValueWithKeyTimes s k nows =
        some (rs, { s with
          stampyBucketStats := { s.stampyBucketStats with
            KeyHits := uint64Inc^[nows.length] s.stampyBucketStats.KeyHits } }) ∧
      rs.length = nows.length ∧
      (∀ r ∈ rs, r.err = none ∧ r.value = e) ∧
      (s.stampyBucketStats.KeyHits + nows.length ≤ maxUint64 →
        uint64Inc^[nows.length] s.stampyBucketStats.KeyHits =
          s.stampyBucketStats.KeyHits + nows.length) ∧
      (s.stampyBucketStats.KeyHits ≤ maxUint64 →
        uint64Inc^[nows.length] s.stampyBucketStats.KeyHits =
          (s.stampyBucketStats.KeyHits + nows.length) % 18446744073709551616) := by
  induction nows generalizing s with
  | nil =>
    exact ⟨[], rfl, rfl, by simp, fun _ => rfl, fun hle => uint64Inc_iterate_mod 0 _ hle⟩
  | cons now rest ih =>
    have hget := get_permanent_hit_eq s k now e hi h hc
    obtain ⟨rs, hrest, hlen, hall, _, _⟩ :=
      ih { s with stampyBucketStats := s.stampyBucketStats.incrementKeyHits } hi h hc
    refine ⟨{ value := e, err := none,
              bucket := { s with stampyBucketStats := s.stampyBucketStats.incrementKeyHits } }
            :: rs, ?_, ?_, ?_, ?_, ?_⟩
    · simp only [getValueWithKeyTimes, hget, hrest]
      rfl
    · simp [hlen]
    · intro r hr
      rcases List.mem_cons.mp hr with hr | hr
      · subst hr
        exact ⟨rfl, rfl⟩
      · exact hall r hr
    · intro hle
      exact uint64Inc_iterate_of_le _ _ hle
    · intro hle
      exact uint64Inc_iterate_mod _ _ hle

/-- C9, witness of the amended claim: three reads of `"k"` in `permanentBucket`. -/
theorem hit_counting_witness :
    (indexMarks permanentBucket.ttlIndex "k" = false ∧
      permanentBucket.keyValueCache "k" =
        some { EntryValue := "v", CreationDate := 1, LastAccessed := 1, ValidUntil := 0 } ∧
      permanentBucket.cacheMutex.writer = false) ∧
    ∃ rs, getValueWithKeyTimes permanentBucket "k" [2, 3, 4] =
        some (rs, { permanentBucket with
          stampyBucketStats := { permanentBucket.stampyBucketStats with
            KeyHits := uint64Inc^[[(2 : Time), 3, 4].length]
              permanentBucket.stampyBucketStats.KeyHits } }) ∧
      rs.length = [(2 : Time), 3, 4].length ∧
      (∀ r ∈ rs, r.err = none ∧ r.value =
        { EntryValue := "v", CreationDate := 1, LastAccessed := 1, ValidUntil := 0 }) ∧
      (permanentBucket.stampyBucketStats.KeyHits + [(2 : Time), 3, 4].length ≤ maxUint64 →
        uint64Inc^[[(2 : Time), 3, 4].length] permanentBucket.stampyBucketStats.KeyHits =
          permanentBucket.stampyBucketStats.KeyHits + [(2 : Time), 3, 4].length) ∧
      (permanentBucket.stampyBucketStats.KeyHits ≤ maxUint64 →
        uint64Inc^[[(2 : Time), 3, 4].length] permanentBucket.stampyBucketStats.KeyHits =
          (permanentBucket.stampyBucketStats.KeyHits + [(2 : Time), 3, 4].length)
            % 18446744073709551616) :=
  ⟨⟨rfl, rfl, rfl⟩,
    hit_counting permanentBucket "k"
      { EntryValue := "v", CreationDate := 1, LastAccessed := 1, ValidUntil := 0 }
      [2, 3, 4] rfl rfl rfl⟩

/-! ## Put counter asymmetry (C10) -/

/-- C10, counterexample.  First part: on `saturatedBucket`, whose `KeyPuts`
is the largest `uint64`, `putKeyWithValue("k", "v", zero time)` leaves
`KeyPuts` at 0: the counter does not grow by 1.  Second part: on `readBucket`,
the empty bucket after `putKeyWithValue("k", "v", 5)` and one
`getValueWithKey("k")`, a `putKeyWithValue` with the non-zero expiry 9 never
returns. -/
theorem put_counters_counterexample :
    (saturatedBucket.stampyBucketStats.KeyPuts = 18446744073709551615 ∧
      ∃ s1, putKeyWithValue saturatedBucket "k" "v" 0 1 = some s1 ∧
        s1.stampyBucketStats.KeyPuts = 0) ∧
    (putKeyWithValue emptyBucket "k" "v" 5 1 = some ttlBucket ∧
      (∃ r, getValueWithKey ttlBucket "k" 2 = some r ∧ r.err = none ∧
        r.bucket.stampyBucketStats = readBucket.stampyBucketStats ∧
        r.bucket.ttlCacheMutex = readBucket.ttlCacheMutex) ∧
      putKeyWithValue readBucket "k" "w" 9 3 = none) :=
  ⟨⟨rfl, _, rfl, rfl⟩, rfl, ⟨_, rfl, rfl, rfl, rfl⟩, rfl⟩

/-- C10, amended: for every bucket, key and value: `putKeyWithValue` with a
zero `validUntil`, on a bucket whose `cacheMutex` nobody holds, returns, adds
one to `KeyPuts` modulo `2 ^ 64` (exactly one when the counter is below the
largest `uint64`) and changes no other counter, whatever the state of
`ttlCacheMutex`; whereas `putKeyWithValue` with a non-zero `validUntil`
leaves all six counters, `KeyPuts` included, unchanged whenever it returns,
and it returns exactly when nobody holds `ttlCacheMutex`. -/
theorem put_counters (s : StampyBucket) (k v : String) (t now : Time) :
    (s.cacheMutex = RWMutex.unlocked →
      ∃ s1, putKeyWithValue s k v 0 now = some s1 ∧
        s1.stampyBucketStats =
          { s.stampyBucketStats with KeyPuts := uint64Inc s.stampyBucketStats.KeyPuts } ∧
        (s.stampyBucketStats.KeyPuts < maxUint64 →
          s1.stampyBucketStats.KeyPuts = s.stampyBucketStats.KeyPuts + 1)) ∧
    (t ≠ 0 →
      (∀ s1, putKeyWithValue s k v t now = some s1 →
        s1.stampyBucketStats = s.stampyBucketStats) ∧
      (s.ttlCacheMutex = RWMutex.unlocked →
        ∃ s1, putKeyWithValue s k v t now = some s1 ∧
          s1.stampyBucketStats = s.stampyBucketStats) ∧
      (s.ttlCacheMutex ≠ RWMutex.unlocked → putKeyWithValue s k v t now = none)) := by
  refine ⟨fun hc => ⟨_, put_permanent_eq s k v now hc, rfl, fun hlt => uint64Inc_of_lt _ hlt⟩,
    fun ht => ⟨?_, fun hm => ⟨_, put_ttl_eq s k v t now ht hm, rfl⟩,
      fun hm => put_ttl_blocked s k v t now ht hm⟩⟩
  intro s1 h
  rcases put_some_cases s s1 k v t now h with ⟨h0, _, _⟩ | ⟨_, _, hs⟩
  · exact absurd h0 ht
  · rw [hs]

/-- C10, the amended claim at concrete inputs: the permanent put on
`readBucket`, whose `ttlCacheMutex` has a shared holder, returns and counts;
the put with expiry 5 on the empty bucket returns and counts nothing. -/
theorem put_counters_witness :
    (∃ s1, putKeyWithValue readBucket "k" "v" 0 3 = some s1 ∧
      s1.stampyBucketStats =
        { readBucket.stampyBucketStats with
          KeyPuts := uint64Inc readBucket.stampyBucketStats.KeyPuts } ∧
      (readBucket.stampyBucketStats.KeyPuts < maxUint64 →
        s1.stampyBucketStats.KeyPuts = readBucket.stampyBucketStats.KeyPuts + 1)) ∧
    (∃ s1, putKeyWithValue emptyBucket "k" "v" 5 1 = some s1 ∧
      s1.stampyBucketStats = emptyBucket.stampyBucketStats) :=
  ⟨(put_counters readBucket "k" "v" 5 3).1 rfl,
    ((put_counters emptyBucket "k" "v" 5 1).2 (by decide)).2.1 rfl⟩

/-! ## NotFound characterisation (C11) -/

/-- C11: for every bucket, key and clock value, a `getValueWithKey(key)` that
returns gives the error `Missing key` if and only if the key has no stored
entry at the time of the call (on the TTL path and on the permanent path
alike), and its error is `nil`, `Missing key` or `Expired key`, nothing else;
the call does return whenever nobody holds `cacheMutex` and `ttlCacheMutex`
has no exclusive holder, which is so in every bucket a single caller reaches. -/
theorem missing_key_iff (s : StampyBucket) (key : String) (now : Time) :
    (s.cacheMutex = RWMutex.unlocked → s.ttlCacheMutex.writer = false →
      ∃ r, getValueWithKey s key now = some r) ∧
    (∀ r, getValueWithKey s key now = some r →
      (r.err = some "Missing key" ↔ s.keyValueCache key = none) ∧
      (r.err = none ∨ r.err = some "Missing key" ∨ r.err = some "Expired key")) := by
  constructor
  · intro hc ht
    have hcw : s.cacheMutex.writer = false := by simp [hc, RWMutex.unlocked]
    by_cases hi : indexMarks s.ttlIndex key = true
    · cases hk : s.keyValueCache key with
      | none => exact ⟨_, get_ttl_missing_eq s key now hi hk ht⟩
      | some e =>
        by_cases hb : e.ValidUntil < now
        · exact ⟨_, get_ttl_expired_eq s key now e hi hk hb ht hc⟩
        · exact ⟨_, get_ttl_hit_eq s key now e hi hk hb ht⟩
    · simp only [Bool.not_eq_true] at hi
      cases hk : s.keyValueCache key with
      | none => exact ⟨_, get_permanent_miss_eq s key now hi hk hcw⟩
      | some e => exact ⟨_, get_permanent_hit_eq s key now e hi hk hcw⟩
  · intro r h
    rcases get_some_cases s r key now h with
      ⟨_, _, ⟨hk, hr⟩ | ⟨e, hk, _, hr⟩ | ⟨e, hk, _, _, hr⟩⟩ | ⟨_, _, ⟨hk, hr⟩ | ⟨e, hk, hr⟩⟩
    · subst hr
      simp [hk]
    · subst hr
      simp [hk]
    · subst hr
      simp [hk]
    · subst hr
      simp [hk]
    · subst hr
      simp [hk]

/-- C11, at concrete inputs: on `ttlBucket`, whose mutexes are unheld, the
read of the entry-less key `"other"` returns, and every read of it that
returns gives `Missing key`. -/
theorem missing_key_iff_witness :
    (∃ r, getValueWithKey ttlBucket "other" 2 = some r) ∧
    (∀ r, getValueWithKey ttlBucket "other" 2 = some r →
      (r.err = some "Missing key" ↔ ttlBucket.keyValueCache "other" = none) ∧
      (r.err = none ∨ r.err = some "Missing key" ∨ r.err = some "Expired key")) :=
  ⟨(missing_key_iff ttlBucket "other" 2).1 rfl rfl, (missing_key_iff ttlBucket "other" 2).2⟩

/-! ## Lock liveness (C12) -/

/-- C12, the code at the failing input: one TTL cycle on the empty bucket.
`putKeyWithValue("k", "v", 5)` at clock 1 returns, `getValueWithKey("k")` at
clock 2 (before expiry) and at clock 6 (after expiry) return, and they leave
two shared holders on `ttlCacheMutex`; the `putKeyWithValue("k", "v", 9)` that
starts the next cycle then never returns: its `ttlCacheMutex.Lock()` waits for
shared holders that no call releases. -/
theorem ttl_cycle_second_put_blocks :
    ∃ s1 r1 r2, putKeyWithValue emptyBucket "k" "v" 5 1 = some s1 ∧
      getValueWithKey s1 "k" 2 = some r1 ∧ r1.err = none ∧
      getValueWithKey r1.bucket "k" 6 = some r2 ∧ r2.err = some "Expired key" ∧
      r2.bucket.ttlCacheMutex = { readers := 2, writer := false } ∧
      putKeyWithValue r2.bucket "k" "v" 9 7 = none :=
  ⟨_, _, _, rfl, rfl, rfl, rfl, rfl, rfl, rfl⟩

/-! ## Delete scope on a TTL-governed key (C13) -/

/-- C13, counterexample: in `ttlBucket` the key `"k"` is marked and holds a
TTL entry (expiry 5); `deleteValueWithKeyIfPresent("k")` removes that stored
entry. -/
theorem delete_ttl_key_counterexample :
    indexMarks ttlBucket.ttlIndex "k" = true ∧
    ttlBucket.keyValueCache "k" =
      some { EntryValue := "v", CreationDate := 1, LastAccessed := 1, ValidUntil := 5 } ∧
    ∃ s1, deleteValueWithKeyIfPresent ttlBucket "k" = some s1 ∧
      s1.keyValueCache "k" = none :=
  ⟨rfl, rfl, _, rfl, rfl⟩

/-- C13, amended: for every bucket (nobody holding `cacheMutex`) and every key
`k` that is marked in the membership index and holds a TTL entry,
`deleteValueWithKeyIfPresent(k)` returns, leaves the membership index (so also
its entry for `k`) unchanged and removes the stored TTL entry of `k`, leaving
the entries of all other keys unchanged: the one mapping holds both kinds of
entry and delete removes either kind. -/
theorem delete_ttl_key (s : StampyBucket) (k : String) (e : StampyBucketEntry)
    (hi : indexMarks s.ttlIndex k = true) (h : s.keyValueCache k = some e)
    (_he : e.ValidUntil ≠ 0) (hc : s.cacheMutex = RWMutex.unlocked) :
    ∃ s1, deleteValueWithKeyIfPresent s k = some s1 ∧
      s1.ttlIndex = s.ttlIndex ∧ indexMarks s1.ttlIndex k = true ∧
      s1.keyValueCache k = none ∧
      (∀ j, j ≠ k → s1.keyValueCache j = s.keyValueCache j) :=
  ⟨_, delete_present_eq s k e h hc, rfl, hi, mapDelete_same _ _,
    fun _ hj => mapDelete_other _ _ _ hj⟩

/-- C13, witness of the amended claim: `ttlBucket` and its key `"k"`. -/
theorem delete_ttl_key_witness :
    (indexMarks ttlBucket.ttlIndex "k" = true ∧
      ttlBucket.keyValueCache "k" =
        some { EntryValue := "v", CreationDate := 1, LastAccessed := 1, ValidUntil := 5 } ∧
      (5 : Time) ≠ 0 ∧ ttlBucket.cacheMutex = RWMutex.unlocked) ∧
    ∃ s1, deleteValueWithKeyIfPresent ttlBucket "k" = some s1 ∧
      s1.ttlIndex = ttlBucket.ttlIndex ∧ indexMarks s1.ttlIndex "k" = true ∧
      s1.keyValueCache "k" = none ∧
      (∀ j, j ≠ "k" → s1.keyValueCache j = ttlBucket.keyValueCache j) :=
  ⟨⟨rfl, rfl, by decide, rfl⟩,
    delete_ttl_key ttlBucket "k"
      { EntryValue := "v", CreationDate := 1, LastAccessed := 1, ValidUntil := 5 }
      rfl rfl (by decide) rfl⟩

/-! ## Counter monotonicity (C14) -/

/-- C14, counterexample: each of the six increment methods takes its counter
from the largest `uint64` to 0, and so does an operation: `getValueWithKey("k")`
on `saturatedEntryBucket` is a hit and leaves `KeyHits`, which was
18446744073709551615, at 0. -/
theorem counters_monotone_counterexample :
    saturatedBucket.stampyBucketStats.KeyPuts = 18446744073709551615 ∧
    saturatedBucket.stampyBucketStats.incrementKeyPuts.KeyPuts = 0 ∧
    saturatedBucket.stampyBucketStats.incrementKeyDeletes.KeyDeletes = 0 ∧
    saturatedBucket.stampyBucketStats.incrementKeyHits.KeyHits = 0 ∧
    saturatedBucket.stampyBucketStats.incrementAbsentKeyHits.AbsentKeyHits = 0 ∧
    saturatedBucket.stampyBucketStats.incrementExpiredKeys.ExpiredKeys = 0 ∧
    saturatedBucket.stampyBucketStats.incrementExpiredKeyHits.ExpiredKeyHits = 0 ∧
    saturatedEntryBucket.stampyBucketStats.KeyHits = 18446744073709551615 ∧
    ∃ r, getValueWithKey saturatedEntryBucket "k" 2 = some r ∧ r.err = none ∧
      r.bucket.stampyBucketStats.KeyHits = 0 :=
  ⟨rfl, rfl, rfl, rfl, rfl, rfl, rfl, rfl, _, rfl, rfl, rfl⟩

/-- C14, amended: for every bucket and every operation among
`putKeyWithValue`, `getValueWithKey`, `deleteValueWithKeyIfPresent` (whenever
the call returns) and the six increment methods, each of the six counters is
after the operation either equal to its value before or equal to that value
incremented once as a `uint64`; so a counter whose value before is below the
largest `uint64` is afterwards greater than or equal to its value before, and
a counter at the largest `uint64` is afterwards unchanged or 0.  Each
increment method takes its own counter from the largest `uint64` to 0. -/
theorem counters_step (s : StampyBucket) :
    (∀ key value validUntil now s1, putKeyWithValue s key value validUntil now = some s1 →
      countersStep s.stampyBucketStats s1.stampyBucketStats) ∧
    (∀ key now r, getValueWithKey s key now = some r →
      countersStep s.stampyBucketStats r.bucket.stampyBucketStats) ∧
    (∀ key s1, deleteValueWithKeyIfPresent s key = some s1 →
      countersStep s.stampyBucketStats s1.stampyBucketStats) ∧
    (countersStep s.stampyBucketStats s.stampyBucketStats.incrementKeyPuts ∧
      countersStep s.stampyBucketStats s.stampyBucketStats.incrementKeyDeletes ∧
      countersStep s.stampyBucketStats s.stampyBucketStats.incrementKeyHits ∧
      countersStep s.stampyBucketStats s.stampyBucketStats.incrementAbsentKeyHits ∧
      countersStep s.stampyBucketStats s.stampyBucketStats.incrementExpiredKeys ∧
      countersStep s.stampyBucketStats s.stampyBucketStats.incrementExpiredKeyHits) ∧
    ((s.stampyBucketStats.KeyPuts = maxUint64 →
        s.stampyBucketStats.incrementKeyPuts.KeyPuts = 0) ∧
      (s.stampyBucketStats.KeyDeletes = maxUint64 →
        s.stampyBucketStats.incrementKeyDeletes.KeyDeletes = 0) ∧
      (s.stampyBucketStats.KeyHits = maxUint64 →
        s.stampyBucketStats.incrementKeyHits.KeyHits = 0) ∧
      (s.stampyBucketStats.AbsentKeyHits = maxUint64 →
        s.stampyBucketStats.incrementAbsentKeyHits.AbsentKeyHits = 0) ∧
      (s.stampyBucketStats.ExpiredKeys = maxUint64 →
        s.stampyBucketStats.incrementExpiredKeys.ExpiredKeys = 0) ∧
      (s.stampyBucketStats.ExpiredKeyHits = maxUint64 →
        s.stampyBucketStats.incrementExpiredKeyHits.ExpiredKeyHits = 0)) := by
  have wrap : ∀ c : Nat, c = maxUint64 → uint64Inc c = 0 := by
    intro c hc
    rw [hc]
    exact uint64Inc_max
  refine ⟨?_, ?_, ?_,
    ⟨countersStep_incrementKeyPuts _, countersStep_incrementKeyDeletes _,
      countersStep_incrementKeyHits _, countersStep_incrementAbsentKeyHits _,
      countersStep_incrementExpiredKeys _, countersStep_incrementExpiredKeyHits _⟩,
    ⟨wrap _, wrap _, wrap _, wrap _, wrap _, wrap _⟩⟩
  · intro key value validUntil now s1 h
    rcases put_some_stats s s1 key value validUntil now h with hs | hs
    · rw [hs]
      exact countersStep_incrementKeyPuts _
    · rw [hs]
      exact countersStep_refl _
  · intro key now r h
    rcases get_some_stats s r key now h with hs | hs | hs | hs
    · rw [hs]
      exact countersStep_refl _
    · rw [hs]
      exact countersStep_incrementKeyHits _
    · rw [hs]
      exact countersStep_incrementAbsentKeyHits _
    · rw [hs]
      exact countersStep_expired _
  · intro key s1 h
    rcases delete_some_stats s s1 key h with hs | hs
    · rw [hs]
      exact countersStep_refl _
    · rw [hs]
      exact countersStep_incrementKeyDeletes _

/-- C14, the amended claim at concrete inputs: the expired read of `"k"` in
`ttlBucket` at clock 6 returns with every counter unchanged or incremented
once, and `incrementKeyHits` takes the `KeyHits` of `saturatedBucket` to 0. -/
theorem counters_step_witness :
    (∃ r, getValueWithKey ttlBucket "k" 6 = some r ∧
      countersStep ttlBucket.stampyBucketStats r.bucket.stampyBucketStats) ∧
    saturatedBucket.stampyBucketStats.incrementKeyHits.KeyHits = 0 :=
  ⟨⟨_, rfl, (counters_step ttlBucket).2.1 "k" 6 _ rfl⟩,
    (counters_step saturatedBucket).2.2.2.2.2.2.1 rfl⟩

/-! ## ExpiredKeys is reserved (C15) -/

/-- C15: for every bucket, key, value, expiry and clock value, none of
`putKeyWithValue`, `getValueWithKey` and `deleteValueWithKeyIfPresent` changes
the `ExpiredKeys` counter, and in every bucket reachable from the empty one by
these three operations `ExpiredKeys` is 0. -/
theorem expired_keys_reserved (s : StampyBucket) :
    (∀ key value validUntil now s1, putKeyWithValue s key value validUntil now = some s1 →
      s1.stampyBucketStats.ExpiredKeys = s.stampyBucketStats.ExpiredKeys) ∧
    (∀ key now r, getValueWithKey s key now = some r →
      r.bucket.stampyBucketStats.ExpiredKeys = s.stampyBucketStats.ExpiredKeys) ∧
    (∀ key s1, deleteValueWithKeyIfPresent s key = some s1 →
      s1.stampyBucketStats.ExpiredKeys = s.stampyBucketStats.ExpiredKeys) ∧
    (Reachable s → s.stampyBucketStats.ExpiredKeys = 0) := by
  refine ⟨?_, ?_, ?_, reachable_expiredKeys s⟩
  · intro key value validUntil now s1 h
    rcases put_some_stats s s1 key value validUntil now h with hs | hs
    · rw [hs]
      rfl
    · rw [hs]
  · intro key now r h
    rcases get_some_stats s r key now h with hs | hs | hs | hs
    · rw [hs]
    · rw [hs]
      rfl
    · rw [hs]
      rfl
    · rw [hs]
      rfl
  · intro key s1 h
    rcases delete_some_stats s s1 key h with hs | hs
    · rw [hs]
    · rw [hs]
      rfl

/-- C15, at a concrete input: the expired read of `"k"` in the reachable
`ttlBucket` returns with `ExpiredKeys` unchanged, and `ExpiredKeys` is 0
there. -/
theorem expired_keys_reserved_witness :
    (∃ r, getValueWithKey ttlBucket "k" 6 = some r ∧ r.err = some "Expired key" ∧
      r.bucket.stampyBucketStats.ExpiredKeys = ttlBucket.stampyBucketStats.ExpiredKeys) ∧
    ttlBucket.stampyBucketStats.ExpiredKeys = 0 :=
  ⟨⟨_, rfl, rfl, (expired_keys_reserved ttlBucket).2.1 "k" 6 _ rfl⟩,
    (expired_keys_reserved ttlBucket).2.2.2
      (Reachable.put "k" "v" 5 1 Reachable.empty rfl)⟩

/-! ## Put writes exactly one entry (C16) -/

/-- C16, the code at the failing input.  `readBucket` is what the empty bucket
becomes by `putKeyWithValue("k", "v", 5)` at clock 1 and `getValueWithKey("k")`
at clock 2; it is reachable and holds the entry written at clock 1.  On it
`putKeyWithValue("k", "w", 9)` at clock 3 never returns, and neither does a
put with an expiry on another key: no entry is written. -/
theorem ttl_put_after_read_writes_nothing :
    putKeyWithValue emptyBucket "k" "v" 5 1 = some ttlBucket ∧
    (∃ r, getValueWithKey ttlBucket "k" 2 = some r ∧ r.err = none ∧
      Reachable r.bucket ∧
      r.bucket.keyValueCache = readBucket.keyValueCache ∧
      r.bucket.ttlIndex = readBucket.ttlIndex ∧
      r.bucket.stampyBucketStats = readBucket.stampyBucketStats ∧
      r.bucket.cacheMutex = readBucket.cacheMutex ∧
      r.bucket.ttlCacheMutex = readBucket.ttlCacheMutex) ∧
    readBucket.keyValueCache "k" =
      some { EntryValue := "v", CreationDate := 1, LastAccessed := 1, ValidUntil := 5 } ∧
    putKeyWithValue readBucket "k" "w" 9 3 = none ∧
    putKeyWithValue readBucket "other" "w" 9 3 = none := by
  have hput : putKeyWithValue emptyBucket "k" "v" 5 1 = some ttlBucket := rfl
  have hreach := Reachable.get "k" 2 (Reachable.put "k" "v" 5 1 Reachable.empty hput)
    (rfl : getValueWithKey ttlBucket "k" 2 = some
      { value := { EntryValue := "v", CreationDate := 1, LastAccessed := 2, ValidUntil := 5 },
        err := none, bucket := readBucket })
  exact ⟨hput, ⟨_, rfl, rfl, hreach, rfl, rfl, rfl, rfl, rfl⟩, rfl, rfl, rfl⟩

/-- What a put that returns has written: the stored entry for `k` is exactly
`EntryValue = v`, `CreationDate = now`, `LastAccessed = now`,
`ValidUntil = validUntil` (whatever was stored for `k` before), the entry of
every other key is unchanged, and on the TTL path the membership index marks
`k`.  The call returns whenever the mutex of its path is unheld (`cacheMutex`
for a zero expiry, `ttlCacheMutex` otherwise). -/
theorem put_writes_one_entry (s : StampyBucket) (k v : String) (validUntil now : Time) :
    (∀ s1, putKeyWithValue s k v validUntil now = some s1 →
      s1.keyValueCache k =
        some { EntryValue := v, CreationDate := now, LastAccessed := now,
               ValidUntil := validUntil } ∧
      (∀ j, j ≠ k → s1.keyValueCache j = s.keyValueCache j) ∧
      (validUntil ≠ 0 → indexMarks s1.ttlIndex k = true)) ∧
    (validUntil = 0 → s.cacheMutex = RWMutex.unlocked →
      ∃ s1, putKeyWithValue s k v validUntil now = some s1) ∧
    (validUntil ≠ 0 → s.ttlCacheMutex = RWMutex.unlocked →
      ∃ s1, putKeyWithValue s k v validUntil now = some s1) := by
  refine ⟨?_, ?_, ?_⟩
  · intro s1 h
    obtain ⟨hkv, hidx⟩ := put_some_data s s1 k v validUntil now h
    refine ⟨?_, ?_, ?_⟩
    · rw [hkv]
      exact mapSet_same _ _ _
    · intro j hj
      rw [hkv]
      exact mapSet_other _ _ _ _ hj
    · intro hv
      rw [hidx]
      simp [hv, indexMarks, mapSet]
  · intro hv hc
    subst hv
    exact ⟨_, put_permanent_eq s k v now hc⟩
  · intro hv hm
    exact ⟨_, put_ttl_eq s k v validUntil now hv hm⟩

/-- The put with expiry 5 of `"k"` over the permanent entry of
`permanentBucket` returns and replaces that entry. -/
theorem put_writes_one_entry_witness :
    ∃ s1, putKeyWithValue permanentBucket "k" "w" 5 2 = some s1 ∧
      s1.keyValueCache "k" =
        some { EntryValue := "w", CreationDate := 2, LastAccessed := 2, ValidUntil := 5 } ∧
      (∀ j, j ≠ "k" → s1.keyValueCache j = permanentBucket.keyValueCache j) ∧
      ((5 : Time) ≠ 0 → indexMarks s1.ttlIndex "k" = true) :=
  ⟨_, rfl, (put_writes_one_entry permanentBucket "k" "w" 5 2).1 _ rfl⟩

/-! ## TTL hit returns a refreshed copy without writing back (C17) -/

/-- C17, counterexample: in `saturatedTtlBucket` the key `"k"` is marked and
holds an entry that is unexpired at clock 2, and `KeyHits` is the largest
`uint64`; `getValueWithKey("k")` at clock 2 is a hit and leaves `KeyHits` at 0:
the counter does not grow by 1. -/
theorem ttl_hit_counterexample :
    indexMarks saturatedTtlBucket.ttlIndex "k" = true ∧
    saturatedTtlBucket.keyValueCache "k" =
      some { EntryValue := "v", CreationDate := 1, LastAccessed := 1, ValidUntil := 5 } ∧
    saturatedTtlBucket.stampyBucketStats.KeyHits = 18446744073709551615 ∧
    ∃ r, getValueWithKey saturatedTtlBucket "k" 2 = some r ∧ r.err = none ∧
      r.bucket.stampyBucketStats.KeyHits = 0 :=
  ⟨rfl, rfl, rfl, _, rfl, rfl, rfl⟩

/-- C17, amended: for every bucket (no exclusive holder of `ttlCacheMutex`) in
which `k` is marked in the index and holds an entry `e` that is not expired at
clock `now` (`e.ValidUntil` is not before `now`), `getValueWithKey(k)` returns
a `nil` error and an entry equal to `e` except that `LastAccessed = now`, adds
one to `KeyHits` modulo `2 ^ 64` (exactly one when the counter is below the
largest `uint64`) and changes no other counter, and leaves the stored mapping
(with the stored `LastAccessed` of `k`) and the membership index unchanged;
`ttlCacheMutex` is left with one more shared holder. -/
theorem ttl_hit_refreshed_copy (s : StampyBucket) (k : String) (e : StampyBucketEntry)
    (now : Time)
    (hi : indexMarks s.ttlIndex k = true) (h : s.keyValueCache k = some e)
    (hv : now ≤ e.ValidUntil) (ht : s.ttlCacheMutex.writer = false) :
    ∃ r, getValueWithKey s k now = some r ∧
      r.err = none ∧
      r.value = { e with LastAccessed := now } ∧
      r.bucket.stampyBucketStats =
        { s.stampyBucketStats with KeyHits := uint64Inc s.stampyBucketStats.KeyHits } ∧
      (s.stampyBucketStats.KeyHits < maxUint64 →
        r.bucket.stampyBucketStats.KeyHits = s.stampyBucketStats.KeyHits + 1) ∧
      r.bucket.keyValueCache = s.keyValueCache ∧
      r.bucket.keyValueCache k = some e ∧
      r.bucket.ttlIndex = s.ttlIndex ∧
      r.bucket.cacheMutex = s.cacheMutex ∧
      r.bucket.ttlCacheMutex =
        { s.ttlCacheMutex with readers := s.ttlCacheMutex.readers + 1 } :=
  ⟨_, get_ttl_hit_eq s k now e hi h (not_lt.mpr hv) ht, rfl, rfl, rfl,
    fun hlt => uint64Inc_of_lt _ hlt, rfl, h, rfl, rfl, rfl⟩

/-- C17, witness of the amended claim: `ttlBucket`, key `"k"`, clock 2. -/
theorem ttl_hit_refreshed_copy_witness :
    (indexMarks ttlBucket.ttlIndex "k" = true ∧
      ttlBucket.keyValueCache "k" =
        some { EntryValue := "v", CreationDate := 1, LastAccessed := 1, ValidUntil := 5 } ∧
      (2 : Time) ≤ 5 ∧ ttlBucket.ttlCacheMutex.writer = false) ∧
    ∃ r, getValueWithKey ttlBucket "k" 2 = some r ∧
      r.err = none ∧
      r.value = { EntryValue := "v", CreationDate := 1, LastAccessed := 2, ValidUntil := 5 } ∧
      r.bucket.stampyBucketStats =
        { ttlBucket.stampyBucketStats with
          KeyHits := uint64Inc ttlBucket.stampyBucketStats.KeyHits } ∧
      (ttlBucket.stampyBucketStats.KeyHits < maxUint64 →
        r.bucket.stampyBucketStats.KeyHits = ttlBucket.stampyBucketStats.KeyHits + 1) ∧
      r.bucket.keyValueCache = ttlBucket.keyValueCache ∧
      r.bucket.keyValueCache "k" =
        some { EntryValue := "v", CreationDate := 1, LastAccessed := 1, ValidUntil := 5 } ∧
      r.bucket.ttlIndex = ttlBucket.ttlIndex ∧
      r.bucket.cacheMutex = ttlBucket.cacheMutex ∧
      r.bucket.ttlCacheMutex =
        { ttlBucket.ttlCacheMutex with readers := ttlBucket.ttlCacheMutex.readers + 1 } :=
  ⟨⟨rfl, rfl, by decide, rfl⟩,
    ttl_hit_refreshed_copy ttlBucket "k"
      { EntryValue := "v", CreationDate := 1, LastAccessed := 1, ValidUntil := 5 } 2
      rfl rfl (by decide) rfl⟩

/-! ## Counter effect of an expired read (C18) -/

/-- C18, counterexample: `getValueWithKey("k")` on `saturatedTtlBucket` at
clock 6 returns `Expired key`; `ExpiredKeyHits` and `KeyDeletes`, both the
largest `uint64` before, are 0 afterwards: neither grows by 1. -/
theorem expired_read_counters_counterexample :
    saturatedTtlBucket.stampyBucketStats.ExpiredKeyHits = 18446744073709551615 ∧
    saturatedTtlBucket.stampyBucketStats.KeyDeletes = 18446744073709551615 ∧
    ∃ r, getValueWithKey saturatedTtlBucket "k" 6 = some r ∧
      r.err = some "Expired key" ∧
      r.bucket.stampyBucketStats.ExpiredKeyHits = 0 ∧
      r.bucket.stampyBucketStats.KeyDeletes = 0 :=
  ⟨rfl, rfl, _, rfl, rfl, rfl, rfl⟩

/-- C18, amended: for every bucket in which `getValueWithKey(k)` returns the
error `Expired key`, the call adds one to `ExpiredKeyHits` and one to
`KeyDeletes`, each modulo `2 ^ 64` (exactly one when the counter is below the
largest `uint64`), and leaves `KeyPuts`, `KeyHits`, `AbsentKeyHits` and
`ExpiredKeys` unchanged. -/
theorem expired_read_counters (s : StampyBucket) (k : String) (now : Time) (r : GetResult)
    (h : getValueWithKey s k now = some r) (herr : r.err = some "Expired key") :
    r.bucket.stampyBucketStats =
      { s.stampyBucketStats with
        KeyDeletes := uint64Inc s.stampyBucketStats.KeyDeletes
        ExpiredKeyHits := uint64Inc s.stampyBucketStats.ExpiredKeyHits } ∧
    (s.stampyBucketStats.ExpiredKeyHits < maxUint64 →
      r.bucket.stampyBucketStats.ExpiredKeyHits = s.stampyBucketStats.ExpiredKeyHits + 1) ∧
    (s.stampyBucketStats.KeyDeletes < maxUint64 →
      r.bucket.stampyBucketStats.KeyDeletes = s.stampyBucketStats.KeyDeletes + 1) := by
  rcases get_some_cases s r k now h with
    ⟨_, _, ⟨_, hr⟩ | ⟨e, _, _, hr⟩ | ⟨e, _, _, _, hr⟩⟩ | ⟨_, _, ⟨_, hr⟩ | ⟨e, _, hr⟩⟩
  · subst hr
    simp at herr
  · subst hr
    simp at herr
  · subst hr
    exact ⟨rfl, fun hlt => uint64Inc_of_lt _ hlt, fun hlt => uint64Inc_of_lt _ hlt⟩
  · subst hr
    simp at herr
  · subst hr
    simp at herr

/-- C18, witness of the amended claim: the read of `"k"` in `ttlBucket` at
clock 6 returns `Expired key`. -/
theorem expired_read_counters_witness :
    ∃ r, getValueWithKey ttlBucket "k" 6 = some r ∧ r.err = some "Expired key" ∧
      r.bucket.stampyBucketStats =
        { ttlBucket.stampyBucketStats with
          KeyDeletes := uint64Inc ttlBucket.stampyBucketStats.KeyDeletes
          ExpiredKeyHits := uint64Inc ttlBucket.stampyBucketStats.ExpiredKeyHits } ∧
      (ttlBucket.stampyBucketStats.ExpiredKeyHits < maxUint64 →
        r.bucket.stampyBucketStats.ExpiredKeyHits =
          ttlBucket.stampyBucketStats.ExpiredKeyHits + 1) ∧
      (ttlBucket.stampyBucketStats.KeyDeletes < maxUint64 →
        r.bucket.stampyBucketStats.KeyDeletes =
          ttlBucket.stampyBucketStats.KeyDeletes + 1) :=
  ⟨_, rfl, rfl, expired_read_counters ttlBucket "k" 6 _ rfl rfl⟩

/-! ## The TTL membership index only grows (C19) -/

/-- C19: for every bucket and every key `k` the membership index marks, the
index still marks `k` after every returning `putKeyWithValue` (with or without
expiry, on any key), `getValueWithKey` (the lazy-expiration path included) and
`deleteValueWithKeyIfPresent`; and once `k` has been put with an expiry, the
index marks `k` in every bucket reached by any later sequence of calls, so
that every later `getValueWithKey(k)` finds the test `s.ttlIndex[key]` true
and takes the TTL path. -/
theorem index_only_grows (s : StampyBucket) (k : String) :
    (indexMarks s.ttlIndex k = true →
      (∀ key value validUntil now s1,
        putKeyWithValue s key value validUntil now = some s1 →
        indexMarks s1.ttlIndex k = true) ∧
      (∀ key now r, getValueWithKey s key now = some r →
        indexMarks r.bucket.ttlIndex k = true) ∧
      (∀ key s1, deleteValueWithKeyIfPresent s key = some s1 →
        indexMarks s1.ttlIndex k = true)) ∧
    (∀ v t now s1 s2, t ≠ 0 → putKeyWithValue s k v t now = some s1 → Steps s1 s2 →
      indexMarks s2.ttlIndex k = true) := by
  constructor
  · intro hi
    refine ⟨?_, ?_, ?_⟩
    · intro key value validUntil now s1 h
      exact steps_index s s1 (Steps.put key value validUntil now (Steps.refl s) h) k hi
    · intro key now r h
      exact steps_index s r.bucket (Steps.get key now (Steps.refl s) h) k hi
    · intro key s1 h
      exact steps_index s s1 (Steps.delete key (Steps.refl s) h) k hi
  · intro v t now s1 s2 ht hput hsteps
    have h1 : indexMarks s1.ttlIndex k = true := by
      rw [(put_some_data s s1 k v t now hput).2]
      simp [ht, indexMarks, mapSet]
    exact steps_index s1 s2 hsteps k h1

/-- C19, at a concrete input: after `putKeyWithValue("k", "v", 5)` on the empty
bucket, an expired read, a delete and a permanent put of `"k"`, the index
still marks `"k"`. -/
theorem index_only_grows_witness :
    ∃ r s2 s3, getValueWithKey ttlBucket "k" 6 = some r ∧
      deleteValueWithKeyIfPresent r.bucket "k" = some s2 ∧
      putKeyWithValue s2 "k" "w" 0 7 = some s3 ∧
      indexMarks s3.ttlIndex "k" = true :=
  ⟨_, _, _, rfl, rfl, rfl,
    (index_only_grows emptyBucket "k").2 "v" 5 1 ttlBucket _ (by decide) rfl
      (Steps.put "k" "w" 0 7
        (Steps.delete "k" (Steps.get "k" 6 (Steps.refl ttlBucket) rfl) rfl) rfl)⟩

/-! ## A miss on the TTL path is not counted (C20) -/

/-- C20: for every bucket in which `k` is marked in the membership index but
has no stored entry, every `getValueWithKey(k)` that returns gives the error
`Missing key` and leaves all six counters (`AbsentKeyHits` included), the
mapping and the index unchanged; the call returns whenever `ttlCacheMutex` has
no exclusive holder, which is so in every bucket a single caller reaches. -/
theorem ttl_miss_not_counted (s : StampyBucket) (k : String) (now : Time)
    (hi : indexMarks s.ttlIndex k = true) (h : s.keyValueCache k = none) :
    (s.ttlCacheMutex.writer = false → ∃ r, getValueWithKey s k now = some r) ∧
    (∀ r, getValueWithKey s k now = some r →
      r.err = some "Missing key" ∧
      r.bucket.stampyBucketStats = s.stampyBucketStats ∧
      r.bucket.keyValueCache = s.keyValueCache ∧
      r.bucket.ttlIndex = s.ttlIndex) := by
  constructor
  · intro ht
    exact ⟨_, get_ttl_missing_eq s k now hi h ht⟩
  · intro r hr
    rcases get_some_cases s r k now hr with
      ⟨_, _, ⟨_, hr⟩ | ⟨e, hk, _, _⟩ | ⟨e, hk, _, _, _⟩⟩ | ⟨hi2, _, _⟩
    · subst hr
      exact ⟨rfl, rfl, rfl, rfl⟩
    · rw [h] at hk
      exact Option.noConfusion hk
    · rw [h] at hk
      exact Option.noConfusion hk
    · rw [hi] at hi2
      exact Bool.noConfusion hi2

/-- C20, witness: `markedEmptyBucket` marks `"k"` and stores nothing for it. -/
theorem ttl_miss_not_counted_witness :
    (indexMarks markedEmptyBucket.ttlIndex "k" = true ∧
      markedEmptyBucket.keyValueCache "k" = none) ∧
    (∃ r, getValueWithKey markedEmptyBucket "k" 7 = some r) ∧
    (∀ r, getValueWithKey markedEmptyBucket "k" 7 = some r →
      r.err = some "Missing key" ∧
      r.bucket.stampyBucketStats = markedEmptyBucket.stampyBucketStats ∧
      r.bucket.keyValueCache = markedEmptyBucket.keyValueCache ∧
      r.bucket.ttlIndex = markedEmptyBucket.ttlIndex) :=
  ⟨⟨rfl, rfl⟩, (ttl_miss_not_counted markedEmptyBucket "k" 7 rfl rfl).1 rfl,
    (ttl_miss_not_counted markedEmptyBucket "k" 7 rfl rfl).2⟩

end Stampy
